import Mathlib

/-!
Verification of the TGTHR-Workspace sync-and-audit server
(`pwa-sync-starter/server/app`).  Each Python function that the claims
depend on is shallowly embedded as an executable Lean definition, and
the claims are settled as theorems about those definitions.

Modelling conventions:
* Python values that may be absent or `None` are embedded as `Option`;
  a Python value that is either a string or non-string garbage is
  embedded as `Option String` (non-strings collapse to `none`, which the
  sources always treat the same way via `isinstance` checks or `.get`).
* Python functions that can raise are embedded as `Except`-valued
  functions; a caught exception corresponds to matching on the outcome.
* Remote (Salesforce/HTTP) calls are embedded by passing the remote
  behaviour explicitly as an argument, so theorems quantify over every
  remote outcome.
* Fresh UUID generation (`uuid.uuid4()`) is embedded by threading a
  supply `Nat → String` together with a counter; each generated uuid
  consumes one position of the supply.
* String operations are re-implemented over the character list of a
  `String` so that the kernel can evaluate them on concrete inputs.
-/

namespace TGTHR

/-- Lower-case a string (Python `str.lower()`, ASCII fidelity). -/
def lowerStr (s : String) : String := String.mk (s.data.map Char.toLower)

/-- Upper-case a string (Python `str.upper()`, ASCII fidelity). -/
def upperStr (s : String) : String := String.mk (s.data.map Char.toUpper)

/-- Python `s.startswith(pre)`. -/
def startsW (s pre : String) : Bool := List.isPrefixOf pre.data s.data

/-- Sublist-contiguous (infix) test on character lists. -/
def listInfix (needle hay : List Char) : Bool :=
  (List.range (hay.length + 1)).any (fun i => List.isPrefixOf needle (hay.drop i))

/-- Python `needle in hay` substring test. -/
def strContains (hay needle : String) : Bool := listInfix needle.data hay.data

/-- Python `str.strip()` with no argument. -/
def pyStrip (s : String) : String :=
  String.mk (((s.data.dropWhile Char.isWhitespace).reverse.dropWhile Char.isWhitespace).reverse)

/-- Python `str.split()` with no argument: split on whitespace runs,
dropping empty pieces. -/
def pySplit (s : String) : List String :=
  ((s.data.splitOnP Char.isWhitespace).map String.mk).filter (fun p => p ≠ "")

/-- Python slicing `s[:n]`. -/
def pyTake (s : String) (n : Nat) : String := String.mk (s.data.take n)

/-- Python truthiness of an optional string: `None` and `""` are falsy. -/
def truthyO (v : Option String) : Bool :=
  match v with
  | some s => s ≠ ""
  | none => false

/-- Python `str.title()` (ASCII fidelity): upper-case every character
that follows a non-alphabetic character, lower-case the rest. -/
def pyTitleAux : Bool → List Char → List Char
  | _, [] => []
  | prevAlpha, c :: cs =>
    (if c.isAlpha then (if prevAlpha then c.toLower else c.toUpper) else c) ::
      pyTitleAux c.isAlpha cs

/-- Python `str.title()`. -/
def pyTitle (s : String) : String := String.mk (pyTitleAux false s.data)

/-- First-match lookup in an association list with string keys
(Python dict read access `d.get(k)` for dicts built without duplicate
keys). -/
def lookupS {α : Type} (m : List (String × α)) (k : String) : Option α :=
  (m.find? (fun p => p.1 = k)).map (fun p => p.2)

/-- Python dict assignment `d[k] = v`: overwrite the existing binding in
place, otherwise append a new one. -/
def dictSetS {α : Type} (m : List (String × α)) (k : String) (v : α) : List (String × α) :=
  if m.any (fun p => p.1 = k) then m.map (fun p => if p.1 = k then (k, v) else p)
  else m ++ [(k, v)]

/-! ## JSON-like structured values

`JVal` embeds the nested dict/list/scalar structures that
`middleware/logging.py` walks (`redact_dict_recursive`) and that
`audit_log_service.py` serialises (`json.dumps`). -/

inductive JVal where
  | jstr : String → JVal
  | jnum : Int → JVal
  | jbool : Bool → JVal
  | jnull : JVal
  | jdict : List (String × JVal) → JVal
  | jlist : List JVal → JVal

/-- Is the value a container (Python `isinstance(v, (dict, list))`)? -/
def isContainerJ : JVal → Bool
  | .jdict _ => true
  | .jlist _ => true
  | _ => false

/-- Index into a list value (`data[i]`); `none` for non-lists and
out-of-range indices. -/
def jItem : JVal → Nat → Option JVal
  | .jlist xs, i => xs[i]?
  | _, _ => none

/-- First-match lookup among dict entries. -/
def jFieldLookup (es : List (String × JVal)) (k : String) : Option JVal :=
  lookupS es k

/-- Field access on a dict value; `none` for non-dicts and absent keys. -/
def jFieldV : JVal → String → Option JVal
  | .jdict es, k => jFieldLookup es k
  | _, _ => none

mutual

/-- Serialisation of `JVal` mirroring `json.dumps` (element order and
separators; string escaping is not modelled because no claim depends on
it). Total on `JVal`, matching the fact that the `TypeError/ValueError`
fallback in `log_action` is unreachable for JSON-shaped Python data. -/
def jsonDumps : JVal → String
  | .jstr s => "\"" ++ s ++ "\""
  | .jnum n => toString n
  | .jbool b => if b then "true" else "false"
  | .jnull => "null"
  | .jdict es => "\x7b" ++ String.intercalate ", " (jsonDumpsEntries es) ++ "\x7d"
  | .jlist xs => "[" ++ String.intercalate ", " (jsonDumpsList xs) ++ "]"

def jsonDumpsEntries : List (String × JVal) → List String
  | [] => []
  | (k, v) :: rest => ("\"" ++ k ++ "\": " ++ jsonDumps v) :: jsonDumpsEntries rest

def jsonDumpsList : List JVal → List String
  | [] => []
  | v :: rest => jsonDumps v :: jsonDumpsList rest

end

/-! ## middleware/logging.py — recursive redaction -/

/-- The sensitive-term list `REDACTED_FIELDS` of
`server/app/middleware/logging.py` (a Python set; only membership is
ever used, so a list embedding is faithful). -/
def REDACTED_FIELDS : List String :=
  ["password", "token", "authorization", "secret", "key",
   "client_secret", "access_token", "refresh_token",
   "bearer", "api_key", "oauth_token", "jwt",
   "ssn", "credit_card", "pin", "cvv", "tax_id",
   "private_key", "rsa_key", "dsa_key",
   "sf_user_id", "instance_url", "consumer_key", "consumer_secret"]

/-- `any(sensitive in key.lower() for sensitive in REDACTED_FIELDS)`. -/
def isSensitiveName (k : String) : Bool :=
  REDACTED_FIELDS.any (fun s => strContains (lowerStr k) s)

/-- Recursion core of `redact_dict_recursive(data, depth, max_depth)`.
The fuel argument is `max_depth - depth`; every recursive call of the
Python function increases `depth` by one, so the two formulations agree.
`fuel = 0` is the `depth >= max_depth` branch. Lists are truncated to
their first 10 items (`data[:10]`), exactly as in the source. -/
def redactAux : Nat → JVal → JVal
  | 0, _ => .jstr "[REDACTED - MAX DEPTH]"
  | fuel+1, .jdict entries => .jdict (entries.map (fun kv =>
      if isSensitiveName kv.1 then (kv.1, JVal.jstr "***REDACTED***")
      else match kv.2 with
        | .jdict es => (kv.1, redactAux fuel (.jdict es))
        | .jlist xs => (kv.1, redactAux fuel (.jlist xs))
        | v => (kv.1, v)))
  | fuel+1, .jlist items => .jlist ((items.take 10).map (fun item => redactAux fuel item))
  | _+1, other => other

/-- `redact_dict_recursive(data)` with the default arguments
`depth = 0, max_depth = 3` used by the middleware. -/
def redact_dict_recursive (data : JVal) : JVal := redactAux 3 data

/-- One step of a path into a `JVal`: a dict field or a list index. -/
inductive JStep where
  | fld : String → JStep
  | idx : Nat → JStep

/-- Resolve a path inside a structured value. -/
def jget : JVal → List JStep → Option JVal
  | v, [] => some v
  | .jdict es, .fld k :: p =>
    match jFieldLookup es k with
    | some v => jget v p
    | none => none
  | .jlist xs, .idx i :: p =>
    match xs[i]? with
    | some v => jget v p
    | none => none
  | _, _ => none

/-- A path step that the redaction walk follows without interference:
a non-sensitive dict key, or a list index inside the retained first ten
items. -/
def stepWalked : JStep → Bool
  | .fld k => !(isSensitiveName k)
  | .idx i => decide (i < 10)

/-- All steps of the path are walked by the redaction. -/
def walkedPath (p : List JStep) : Bool := p.all stepWalked

/-! ## salesforce/audit_log_service.py -/

/-- Outcome of the one remote call inside `log_action`
(`self.sf_client.create(...)`): success, an `SFError`, or any other
exception. -/
inductive WriteOutcome where
  | ok
  | sfError (msg : String)
  | otherError (msg : String)

/-- The arguments of `AuditLogService.log_action`. -/
structure AuditArgs where
  action_type : String
  entity_id : Option String
  details : String
  user_id : Option String
  application : String
  audit_json : Option JVal
  compliance_reference : Option String
  created_by_integration : Bool
  event_type : Option String
  source_ip : Option String
  status : Option String
  timestamp : Option String

/-- `AuditLogService._normalize_event_type`. -/
def normalize_event_type (event_type : String) : Option String :=
  if event_type = "" then none
  else
    let upper := upperStr event_type
    if upper = "ACCESS" then some "Access"
    else if upper = "MODIFY" then some "Modify"
    else if upper = "CREATE" then some "Create"
    else if upper = "DELETE" then some "Delete"
    else if upper = "VIEW" then some "View"
    else some (pyTake (pyTitle event_type) 255)

/-- Python truthiness of the optional `audit_json` argument: `None`,
empty dicts and empty lists are falsy. -/
def truthyJ : Option JVal → Bool
  | none => false
  | some (.jdict es) => !es.isEmpty
  | some (.jlist xs) => !xs.isEmpty
  | some (.jstr s) => s ≠ ""
  | some (.jnum n) => n ≠ 0
  | some (.jbool b) => b
  | some .jnull => false

/-- The `record` dict that `log_action` builds before attempting the
remote write (`nowIso` stands for `datetime.now(timezone.utc).isoformat()`). -/
def buildAuditRecord (a : AuditArgs) (nowIso : String) : List (String × JVal) :=
  let base : List (String × JVal) :=
    [("Action__c", .jstr (pyTake (if a.action_type = "" then "UNKNOWN" else a.action_type) 255)),
     ("Description__c", .jstr (if a.details ≠ "" then pyTake a.details 32768 else "")),
     ("Application__c", .jstr (if a.application ≠ "" then pyTake a.application 255 else "PWA")),
     ("Created_by_Integration__c", .jbool a.created_by_integration),
     ("Timestamp__c", .jstr (match a.timestamp with
       | some t => if t ≠ "" then t else nowIso
       | none => nowIso))]
  let r1 := match a.entity_id with
    | some e =>
      if e ≠ "" then
        if startsW e "001" then dictSetS base "Record_Id__c" (.jstr e)
        else dictSetS base "UUID__c" (.jstr e)
      else base
    | none => base
  let r2 := match a.user_id with
    | some u => if u ≠ "" then dictSetS r1 "User__c" (.jstr u) else r1
    | none => r1
  let r3 := match a.event_type with
    | some et =>
      if et ≠ "" then
        match normalize_event_type et with
        | some n => if n ≠ "" then dictSetS r2 "Event_Type__c" (.jstr n) else r2
        | none => r2
      else r2
    | none => r2
  let r4 := match a.source_ip with
    | some ip => if ip ≠ "" then dictSetS r3 "Source_IP__c" (.jstr (pyTake ip 255)) else r3
    | none => r3
  let r5 := match a.compliance_reference with
    | some c => if c ≠ "" then dictSetS r4 "Compliance_Reference__c" (.jstr (pyTake c 255)) else r4
    | none => r4
  let r6 := match a.status with
    | some st => if st ≠ "" then dictSetS r5 "Status__c" (.jstr (pyTake st 255)) else r5
    | none => r5
  if truthyJ a.audit_json then
    dictSetS r6 "Audit_JSON__c"
      (.jstr (pyTake (jsonDumps ((a.audit_json).getD .jnull)) 131000))
  else r6

/-- What `log_action` produced: the record it attempted to write
remotely, and the local error-log line emitted when the remote write
raised (the `logger.error` calls of the two `except` arms). -/
structure LogActionOut where
  record : List (String × JVal)
  localErrorLog : Option String

/-- `AuditLogService.log_action`, embedded as an `Except`-valued
function: an `.error` result would correspond to an exception escaping
to the caller. The one fallible operation, the remote
`sf_client.create`, has its outcome passed in as `remote`; both
`except` arms of the source catch, log locally and fall through. -/
def log_action (a : AuditArgs) (nowIso : String) (remote : WriteOutcome) :
    Except String LogActionOut :=
  let record := buildAuditRecord a nowIso
  match remote with
  | .ok => .ok ⟨record, none⟩
  | .sfError m => .ok ⟨record, some ("Failed to create audit log entry: " ++ m)⟩
  | .otherError m => .ok ⟨record, some ("Unexpected error writing audit log: " ++ m)⟩

/-- A business operation that returns `v` after relaying its audit
record through `log_action`: the composition used by every endpoint in
`api/sync.py` and by the middleware. Any exception escaping the audit
write would propagate through the `bind`. -/
def withAudit {α : Type} (a : AuditArgs) (nowIso : String) (remote : WriteOutcome) (v : α) :
    Except String α :=
  (log_action a nowIso remote).bind (fun _ => .ok v)

/-! ## middleware/audit_integration.py -/

/-- `PHI_ACCESS_PATTERNS` (a Python dict; embedded as a list in
insertion order because `_get_action_type` iterates `items()` and takes
the first match). -/
def PHI_ACCESS_PATTERNS : List (String × String) :=
  [("/api/quick-person-account", "CREATE_PERSON"),
   ("/api/person", "ACCESS_PERSON"),
   ("/api/sync", "SYNC_DATA"),
   ("/api/interaction-summary", "ACCESS_INTERACTION"),
   ("/api/cases", "ACCESS_CASE"),
   ("/api/ssrs", "ACCESS_ASSESSMENT"),
   ("/api/benefits", "ACCESS_BENEFITS"),
   ("/api/disburse", "DISBURSE_BENEFIT")]

/-- `NON_PHI_ENDPOINTS`. -/
def NON_PHI_ENDPOINTS : List String :=
  ["/health", "/api/health", "/docs", "/openapi.json", "/redoc"]

/-- `AuditIntegration._is_phi_endpoint`. -/
def is_phi_endpoint (path : String) : Bool :=
  if NON_PHI_ENDPOINTS.any (fun e => startsW path e) then false
  else PHI_ACCESS_PATTERNS.any (fun pr => startsW path pr.1)

/-- `AuditIntegration._get_action_type` (the request's method and path). -/
def get_action_type (method path : String) : String :=
  let m := upperStr method
  match PHI_ACCESS_PATTERNS.find? (fun pr => startsW path pr.1) with
  | some pr =>
    if m = "POST" then pr.2 ++ "_CREATE"
    else if m = "PUT" ∨ m = "PATCH" then pr.2 ++ "_MODIFY"
    else if m = "DELETE" then pr.2 ++ "_DELETE"
    else pr.2
  | none =>
    if m = "GET" then "VIEW"
    else if m = "POST" then "CREATE"
    else if m = "PUT" then "MODIFY"
    else if m = "PATCH" then "MODIFY"
    else if m = "DELETE" then "DELETE"
    else "OTHER"

/-- `AuditIntegration._get_event_type`. -/
def get_event_type (statusCode : Nat) : String :=
  if statusCode < 300 then "ACCESS"
  else if statusCode < 400 then "ACCESS"
  else if statusCode = 401 ∨ statusCode = 403 then "ATTEMPT"
  else "ATTEMPT"

/-- The request data consumed by `log_api_access` (ip already resolved
by `_get_client_ip`). -/
structure ApiRequest where
  method : String
  path : String
  sourceIp : String

/-- The remaining arguments of `log_api_access`. `duration_ms` is
modelled as an integer; no claim depends on fractional durations. -/
structure ApiAccessArgs where
  responseStatus : Nat
  userId : Option String
  entityIds : List String
  durationMs : Int
  requestId : Option String
  errorDetail : Option String

/-- The audit action written by `log_api_access` when it audits. -/
structure ApiAuditWritten where
  actionType : String
  eventType : String
  out : LogActionOut

/-- `AuditIntegration.log_api_access`. Returns `.ok none` when the
endpoint is not audited (the early return for non-PHI paths); any
exception raised inside the `try` block is caught, so the embedded
function only errors if the code would let an exception escape. -/
def log_api_access (req : ApiRequest) (args : ApiAccessArgs) (nowIso : String)
    (remote : WriteOutcome) : Except String (Option ApiAuditWritten) :=
  if !(is_phi_endpoint req.path) then .ok none
  else
    let action_type := get_action_type req.method req.path
    let event_type := get_event_type args.responseStatus
    let primary := args.entityIds.head?
    let details := req.method ++ " " ++ req.path ++ " - " ++
      (if args.responseStatus < 400 then "SUCCESS" else "FAILURE")
    let audit_json : JVal := .jdict
      [("request_id", match args.requestId with | some r => .jstr r | none => .jnull),
       ("method", .jstr req.method),
       ("path", .jstr req.path),
       ("status_code", .jnum (Int.ofNat args.responseStatus)),
       ("duration_ms", .jnum args.durationMs),
       ("entity_count", .jnum (Int.ofNat args.entityIds.length)),
       ("entities_accessed", .jlist (args.entityIds.map JVal.jstr))]
    let audit_json := if (args.errorDetail).isSome then
        JVal.jdict ((match audit_json with | .jdict es => es | _ => []) ++
          [("error", .jstr ((args.errorDetail).getD "")),
           ("error_type", .jstr "FAILED_ACCESS_ATTEMPT")])
      else audit_json
    let la := log_action
      ⟨action_type, primary, details, args.userId, "PWA", some audit_json,
       args.requestId, true, some event_type, some req.sourceIp,
       (if args.responseStatus < 400 then some "SUCCESS" else some "FAILURE"),
       some nowIso⟩ nowIso remote
    match la with
    | .ok o => .ok (some ⟨action_type, event_type, o⟩)
    | .error _ => .ok none

/-- Claim-side notion: the operation verb the claim C9 assigns to each
HTTP method (`create` for POST, `modify` for PUT/PATCH, `delete` for
DELETE, `read` for GET-style methods). -/
inductive OpVerb where
  | createV
  | modifyV
  | deleteV
  | readV

/-- Claim-side mapping from an HTTP method to its operation verb. -/
def verbOfMethod (method : String) : OpVerb :=
  let m := upperStr method
  if m = "POST" then .createV
  else if m = "PUT" ∨ m = "PATCH" then .modifyV
  else if m = "DELETE" then .deleteV
  else .readV

/-- Claim-side combination of a canonical action noun with an operation
verb, as realised by the code: a suffix for create/modify/delete and the
bare noun for reads. -/
def combineAction (noun : String) : OpVerb → String
  | .createV => noun ++ "_CREATE"
  | .modifyV => noun ++ "_MODIFY"
  | .deleteV => noun ++ "_DELETE"
  | .readV => noun

/-! ## salesforce/sf_client.py — token cache -/

/-- The process-wide `_token_cache` entry
`(access_token, instance_url, expires_at_epoch)`. Epoch times are
embedded as integers (seconds). -/
structure TokenCache where
  accessToken : String
  instanceUrl : String
  expiresAt : Int

/-- Outcome of the `httpx.post` token exchange inside `_get_token`. -/
inductive AuthOutcome where
  | success (token instanceUrl : String)
  | failure (statusCode : Nat) (body : String)

/-- Result of one `_get_token` call: the returned pair or raised
`SFAuthError`, the cache afterwards, and whether an authentication
request was performed. -/
structure TokenResult where
  result : Except String (String × String)
  cache : Option TokenCache
  didAuth : Bool

/-- `_get_token`: serve from the cache while more than 30 seconds of
validity remain, otherwise exchange the JWT assertion for a fresh token
and cache it for 14 minutes. `now` stands for `time.time()` and `auth`
for the network outcome of the token request. -/
def get_token : Option TokenCache → Int → AuthOutcome → TokenResult
  | some c, now, auth =>
    if c.expiresAt - now > 30 then ⟨.ok (c.accessToken, c.instanceUrl), some c, false⟩
    else
      match auth with
      | .failure code body =>
        ⟨.error ("JWT auth failed: " ++ toString code ++ " " ++ body), some c, true⟩
      | .success t u => ⟨.ok (t, u), some ⟨t, u, now + 14 * 60⟩, true⟩
  | none, now, auth =>
    match auth with
    | .failure code body =>
      ⟨.error ("JWT auth failed: " ++ toString code ++ " " ++ body), none, true⟩
    | .success t u => ⟨.ok (t, u), some ⟨t, u, now + 14 * 60⟩, true⟩

/-! ## salesforce/sf_client.py — Person Account creation, and the
`/sync/PersonAccount` and `/api/quick-person-account` push paths -/

/-- A remote Account record: its Salesforce id and its field values. -/
structure SfAccount where
  sfId : String
  fields : List (String × String)

/-- The remote org state visible to the embedded push paths: the
Account records, the describe-driven Account field-name set
(`_get_account_fields`), the Person Account record type id
(`get_person_account_record_type_id`), and a counter from which new
Salesforce ids are generated. -/
structure SfOrg where
  accounts : List SfAccount
  accountFieldSet : List String
  personRtId : Option String
  nextId : Nat

/-- The id Salesforce assigns to the `nextId`-th created Account.
Standard Account ids carry the `001` key prefix. -/
def genSfId (n : Nat) : String := "001R" ++ toString n

/-- `SELECT Id FROM Account WHERE UUID__c = 'v' LIMIT 1`, embedded
structurally (SOQL string building is not modelled). -/
def queryAccountIdByUuid (org : SfOrg) (v : String) : Option String :=
  (org.accounts.find? (fun acc => lookupS acc.fields "UUID__c" = some v)).map
    (fun acc => acc.sfId)

/-- The `base` dict of `create_person_account`: every candidate field
with its optional value, in source order. `lastName` gets the
`or "Unknown"` fallback. Only the fields relevant to the claims carry
their source semantics; all are threaded through the same
drop-if-blank / drop-if-unknown-to-the-org filter. -/
def personBaseFields (person : List (String × String)) (rtId : Option String) :
    List (String × Option String) :=
  [("RecordTypeId", rtId),
   ("LastName", some (match lookupS person "lastName" with
     | some s => if s ≠ "" then s else "Unknown"
     | none => "Unknown")),
   ("FirstName", lookupS person "firstName"),
   ("PersonEmail", lookupS person "email"),
   ("PersonMobilePhone", lookupS person "phone"),
   ("PersonBirthdate", lookupS person "birthdate"),
   ("PersonMailingStreet", lookupS person "street"),
   ("PersonMailingCity", lookupS person "city"),
   ("PersonMailingState", lookupS person "state"),
   ("PersonMailingPostalCode", lookupS person "postalCode"),
   ("HMIS_Identifier_Number__c", lookupS person "hmisId"),
   ("Alternate_Email__c", lookupS person "alternateEmail"),
   ("Gender_Identity__pc", lookupS person "genderIdentity"),
   ("Social_Security_Number__pc", lookupS person "ssnLast4"),
   ("Eye_Color__pc", lookupS person "eyeColor"),
   ("Hair_Description__pc", lookupS person "hairDescription"),
   ("Height__pc", lookupS person "height"),
   ("Weight__pc", lookupS person "weight"),
   ("Preferred_Language__pc", lookupS person "preferredLanguage"),
   ("Translator_Needed__pc", lookupS person "translatorNeeded"),
   ("Notable_Features_Tattoos__pc", lookupS person "notableFeatures"),
   ("Gender_Identity_Other_Description__pc", lookupS person "genderIdentityOther"),
   ("PersonPronouns__pc", lookupS person "pronouns"),
   ("Pronouns_Other_Description__pc", lookupS person "pronounsOther"),
   ("Race_and_Ethnicity__pc", lookupS person "raceEthnicity"),
   ("Veteran_Service__pc", lookupS person "veteranService"),
   ("Identified_Issues_Notes__pc", lookupS person "notes"),
   ("UUID__c", lookupS person "uuid")]

/-- The per-field filter of `create_person_account`'s payload loop:
drop `None` and blank values, drop `RecordTypeId` when no record type
id is known, keep only fields the org describe exposes. -/
def keepField (org : SfOrg) (kv : String × Option String) : Option (String × String) :=
  match kv.2 with
  | none => none
  | some v =>
    if pyStrip v = "" then none
    else if kv.1 = "RecordTypeId" ∧ org.personRtId = none then none
    else if org.accountFieldSet.contains kv.1 then some (kv.1, v)
    else none

/-- One iteration of `create_person_account`'s payload loop. -/
def keepStep (org : SfOrg) (acc : List (String × String))
    (kv : String × Option String) : List (String × String) :=
  match keepField org kv with
  | some e => acc ++ [e]
  | none => acc

/-- The `payload` loop of `create_person_account`: apply `keepField`
to every candidate field in order. -/
def keptFields (person : List (String × String)) (org : SfOrg) :
    List (String × String) :=
  (personBaseFields person org.personRtId).foldl (keepStep org) []

/-- The payload filter of `create_person_account`: the kept fields,
then the SSN status field set to "Partial" when the org has it. -/
def buildPersonPayload (person : List (String × String)) (org : SfOrg) :
    List (String × String) :=
  if org.accountFieldSet.contains "Social_Security_Number_Status__pc" then
    dictSetS (keptFields person org) "Social_Security_Number_Status__pc" "Partial"
  else keptFields person org

/-- `create_person_account`: POST the filtered payload to
`/sobjects/Account/` and return the new record id. -/
def create_person_account (person : List (String × String)) (org : SfOrg) :
    String × SfOrg :=
  let payload := buildPersonPayload person org
  let newId := genSfId org.nextId
  (newId, ⟨org.accounts ++ [⟨newId, payload⟩], org.accountFieldSet, org.personRtId,
    org.nextId + 1⟩)

/-- Which remote call of a push endpoint fails, if any. `healthy` means
every remote call succeeds. -/
inductive RemoteMode where
  | healthy
  | failQuery (msg : String)
  | failCreate (msg : String)

/-- The HTTP error raised by an endpoint
(`HTTPException(status_code=500, detail=...)`). -/
structure HttpError where
  statusCode : Nat
  message : String
  errorText : String

/-- The success response body of `/sync/PersonAccount`. -/
structure SyncPAResp where
  localId : String
  salesforceId : String

/-- `sync_person_account` (`POST /sync/PersonAccount` in
`api/sync.py`): set `person["uuid"] = localId`, query the org for an
Account with that `UUID__c`; return the existing id if found, otherwise
create a Person Account. On any exception the endpoint logs a Failed
audit action and raises `HTTPException(500, ...)`. The device-user
lookup only feeds the audit record (modelled by `log_action`, which
absorbs its own failures) and is not repeated here; the audit relay
does not affect the response or the org. -/
def sync_person_account (localId : String) (person : List (String × String))
    (org : SfOrg) (mode : RemoteMode) : Except HttpError SyncPAResp × SfOrg :=
  let person1 := dictSetS person "uuid" localId
  match mode with
  | .failQuery m =>
    (.error ⟨500, "Failed to sync Person Account to Salesforce.", m⟩, org)
  | .healthy =>
    match queryAccountIdByUuid org localId with
    | some sfId => (.ok ⟨localId, sfId⟩, org)
    | none =>
      let (sfId, org1) := create_person_account person1 org
      (.ok ⟨localId, sfId⟩, org1)
  | .failCreate m =>
    match queryAccountIdByUuid org localId with
    | some sfId => (.ok ⟨localId, sfId⟩, org)
    | none =>
      (.error ⟨500, "Failed to sync Person Account to Salesforce.", m⟩, org)

/-- A row of the participants table as created by
`/api/quick-person-account` in `api/outreach.py`. -/
structure OutreachRow where
  uuid : String
  sfid : Option String
  firstName : String
  lastName : String
  deviceId : Option String

/-- The success response body of `/api/quick-person-account`:
`{localId, salesforceId, synced: True}` on a confirmed remote write,
`{localId, synced: False}` when the remote sync failed. -/
structure QuickPAResp where
  localId : String
  salesforceId : Option String
  synced : Bool

/-- `INSERT OR REPLACE` into the outreach participants table, keyed by
the `uuid` primary key. -/
def upsertOutreachRow (tbl : List OutreachRow) (r : OutreachRow) : List OutreachRow :=
  if tbl.any (fun x => x.uuid = r.uuid) then
    tbl.map (fun x => if x.uuid = r.uuid then r else x)
  else tbl ++ [r]

/-- `create_quick_person_account` (`POST /api/quick-person-account` in
`api/outreach.py`): store the participant locally first (sfid NULL),
then try to create the Person Account remotely; on success update the
local row with the Salesforce id and answer `synced: True`; on any
failure of the remote sync keep the local row unsynced and answer the
success-shaped `{localId, synced: False}`. `freshLocalId` stands for
the generated `str(uuid.uuid4())`. -/
def create_quick_person_account (payload : List (String × String))
    (tbl : List OutreachRow) (freshLocalId : String) (org : SfOrg)
    (mode : RemoteMode) :
    Except HttpError QuickPAResp × List OutreachRow × SfOrg :=
  let row : OutreachRow :=
    ⟨freshLocalId, none, (lookupS payload "firstName").getD "",
      (lookupS payload "lastName").getD "", lookupS payload "deviceId"⟩
  let tbl1 := upsertOutreachRow tbl row
  match mode with
  | .healthy =>
    let person1 := dictSetS payload "uuid" freshLocalId
    let (sfId, org1) := create_person_account person1 org
    let tbl2 := tbl1.map (fun x => if x.uuid = freshLocalId then
      ⟨x.uuid, some sfId, x.firstName, x.lastName, x.deviceId⟩ else x)
    (.ok ⟨freshLocalId, some sfId, true⟩, tbl2, org1)
  | .failQuery _ => (.ok ⟨freshLocalId, none, false⟩, tbl1, org)
  | .failCreate _ => (.ok ⟨freshLocalId, none, false⟩, tbl1, org)

/-! ## sync_helpers.py and sync_runner.py -/

/-- `ensure_uuid(val)`: the stripped value when it is a non-blank
string, otherwise a freshly generated uuid (`fresh` stands for the
`str(uuid.uuid4())` drawn at this call). -/
def ensure_uuid (val : Option String) (fresh : String) : String :=
  match val with
  | some s => if pyStrip s ≠ "" then pyStrip s else fresh
  | none => fresh

/-- Does `ensure_uuid` consume a freshly generated uuid for this value? -/
def needsFresh (val : Option String) : Bool :=
  match val with
  | some s => pyStrip s = ""
  | none => true

/-- `INSERT OR REPLACE` keyed by a row's primary key: replace every row
with the same key in place, otherwise append. -/
def upsertRowBy {α : Type} (keyOf : α → String) (tbl : List α) (r : α) : List α :=
  if tbl.any (fun x => keyOf x = keyOf r) then
    tbl.map (fun x => if keyOf x = keyOf r then r else x)
  else tbl ++ [r]

/-- A row of the local `programs` table. -/
structure ProgRow where
  uuid : String
  sfid : Option String
  name : Option String
  lastModifiedDate : Option String
deriving DecidableEq, Repr

/-- A row of the local `participants` table (the columns written by
`upsert_participants`; `preferred_name` is always NULL there). -/
structure PartRow where
  uuid : String
  sfid : Option String
  firstName : Option String
  lastName : Option String
  email : Option String
  phone : Option String
  dateOfBirth : Option String
  updatedAt : Option String
deriving DecidableEq, Repr

/-- A row of the local `program_enrollments` table. -/
structure EnrRow where
  uuid : String
  sfid : String
  programId : String
  enrolleeId : String
  startDate : Option String
  endDate : Option String
  status : Option String
  enteredHmis : Bool
  exitedHmis : Bool
  lastModifiedDate : Option String
deriving DecidableEq, Repr

/-- A fetched Salesforce Program record (the fields selected by
`fetch_programs`); `none` models an absent, null or non-string value. -/
structure SfProgramRec where
  idF : Option String
  nameF : Option String
  uuidF : Option String
  lastModF : Option String
deriving DecidableEq, Repr

/-- A fetched Salesforce Person Account record. `isPersonAccount`
embeds the truthiness of `a.get("IsPersonAccount")`. -/
structure SfAccountRec where
  idF : Option String
  isPersonAccount : Bool
  nameF : Option String
  personFirstName : Option String
  personLastName : Option String
  personEmail : Option String
  phoneF : Option String
  personBirthdate : Option String
  uuidF : Option String
  lastModF : Option String
deriving DecidableEq, Repr

/-- A fetched Salesforce ProgramEnrollment record. The booleans embed
`bool(e.get(...))` of the two HMIS flags. -/
structure SfEnrRec where
  idF : Option String
  programIdF : Option String
  accountIdF : Option String
  uuidF : Option String
  startDateF : Option String
  endDateF : Option String
  statusF : Option String
  enteredHmisF : Bool
  exitedHmisF : Bool
  lastModF : Option String
deriving DecidableEq, Repr

/-- `upsert_programs(db, rows)`: walk the fetched rows, reconcile each
uuid with `ensure_uuid`, record the `Id -> uuid` mapping and
`INSERT OR REPLACE` the local row keyed by uuid. A row without an `Id`
raises `KeyError` at `id_to_uuid[r["Id"]]` and aborts the sync. The
best-effort `sobject_update` write-back swallows its own exceptions and
does not touch local state, so it contributes nothing here. Returns
the mapping, the table and the uuid-supply counter. -/
def upsert_programs : List ProgRow → List SfProgramRec → (Nat → String) → Nat →
    List (String × String) → Except String (List (String × String) × List ProgRow × Nat)
  | tbl, [], _, ctr, acc => .ok (acc, tbl, ctr)
  | tbl, r :: rs, supply, ctr, acc =>
    let pUuid := ensure_uuid r.uuidF (supply ctr)
    let ctr1 := if needsFresh r.uuidF then ctr + 1 else ctr
    match r.idF with
    | none => .error "KeyError: Id"
    | some rid =>
      let acc1 := dictSetS acc rid pUuid
      let tbl1 := upsertRowBy ProgRow.uuid tbl ⟨pUuid, r.idF, r.nameF, r.lastModF⟩
      upsert_programs tbl1 rs supply ctr1 acc1

/-- `_extract_first_name`. -/
def extract_first_name (a : SfAccountRec) : Option String :=
  if truthyO a.personFirstName then a.personFirstName
  else
    match a.nameF with
    | some n =>
      if n ≠ "" then
        match pySplit n with
        | p :: _ => some p
        | [] => none
      else none
    | none => none

/-- `_extract_last_name`. Raises `IndexError` (`parts[0]` on an empty
split) when the account has no `PersonLastName`, a truthy `Name`, and
that name is all whitespace. -/
def extract_last_name (a : SfAccountRec) : Except String (Option String) :=
  if truthyO a.personLastName then .ok a.personLastName
  else
    match a.nameF with
    | some n =>
      if n ≠ "" then
        match pySplit n with
        | [p] => .ok (some p)
        | _ :: p2 :: ps => .ok (some (String.intercalate " " (p2 :: ps)))
        | [] => .error "IndexError: list index out of range"
      else .ok none
    | none => .ok none

/-- `upsert_participants(db, rows)`: skip non-person accounts,
reconcile the uuid, record the mapping and `INSERT OR REPLACE` the
local row keyed by uuid. -/
def upsert_participants : List PartRow → List SfAccountRec → (Nat → String) → Nat →
    List (String × String) → Except String (List (String × String) × List PartRow × Nat)
  | tbl, [], _, ctr, acc => .ok (acc, tbl, ctr)
  | tbl, a :: rs, supply, ctr, acc =>
    if !a.isPersonAccount then upsert_participants tbl rs supply ctr acc
    else
      let paUuid := ensure_uuid a.uuidF (supply ctr)
      let ctr1 := if needsFresh a.uuidF then ctr + 1 else ctr
      match a.idF with
      | none => .error "KeyError: Id"
      | some rid =>
        let acc1 := dictSetS acc rid paUuid
        match extract_last_name a with
        | .error e => .error e
        | .ok lastName =>
          let tbl1 := upsertRowBy PartRow.uuid tbl
            ⟨paUuid, a.idF, extract_first_name a, lastName, a.personEmail,
              a.phoneF, a.personBirthdate, a.lastModF⟩
          upsert_participants tbl1 rs supply ctr1 acc1

/-- The skip conditions of `upsert_enrollments` for one fetched row,
given the two parent mappings: the row is inserted exactly when its
`Id`, `ProgramId` and `AccountId` are non-empty strings and both parent
ids map to non-empty uuids. -/
def enrInsertable (progM acctM : List (String × String)) (e : SfEnrRec) : Bool :=
  match e.idF, e.programIdF, e.accountIdF with
  | some i, some p, some a =>
    i ≠ "" && p ≠ "" && a ≠ "" &&
      (match lookupS progM p with
       | some u => u ≠ ""
       | none => false) &&
      (match lookupS acctM a with
       | some u => u ≠ ""
       | none => false)
  | _, _, _ => false

/-- `upsert_enrollments(db, rows, prog_uuid_by_id, acct_uuid_by_id)`:
skip rows whose ids are missing/blank or whose parent references do not
resolve; for inserted rows, reconcile the enrollment uuid and
`INSERT OR REPLACE` keyed by uuid. Besides the mapping, the table and
the counter, the embedding returns the list of rows actually handed to
`db.execute` (the insert log), in order. -/
def upsert_enrollments : List EnrRow → List SfEnrRec → List (String × String) →
    List (String × String) → (Nat → String) → Nat → List (String × String) →
    List EnrRow → List (String × String) × List EnrRow × Nat × List EnrRow
  | tbl, [], _, _, _, ctr, acc, insLog => (acc, tbl, ctr, insLog)
  | tbl, e :: rs, progM, acctM, supply, ctr, acc, insLog =>
    if enrInsertable progM acctM e then
      match e.idF, e.programIdF, e.accountIdF with
      | some sfEnrId, some programId, some accountId =>
        let enrUuid := ensure_uuid e.uuidF (supply ctr)
        let ctr1 := if needsFresh e.uuidF then ctr + 1 else ctr
        let acc1 := dictSetS acc sfEnrId enrUuid
        let row : EnrRow :=
          ⟨enrUuid, sfEnrId, programId, accountId, e.startDateF, e.endDateF,
            e.statusF, e.enteredHmisF, e.exitedHmisF, e.lastModF⟩
        let tbl1 := upsertRowBy EnrRow.uuid tbl row
        upsert_enrollments tbl1 rs progM acctM supply ctr1 acc1 (insLog ++ [row])
      | _, _, _ => upsert_enrollments tbl rs progM acctM supply ctr acc insLog
    else upsert_enrollments tbl rs progM acctM supply ctr acc insLog

/-- The three fetched record sets a full sync cycle works from
(`fetch_programs`, `fetch_enrollments_for_programs`, `fetch_accounts`;
the SOQL filtering happens remotely and the theorems quantify over
every fetched record set). -/
structure RemoteData where
  programs : List SfProgramRec
  enrollments : List SfEnrRec
  accounts : List SfAccountRec

/-- The three mirrored tables of the local cache. -/
structure DbTables where
  programs : List ProgRow
  participants : List PartRow
  enrollments : List EnrRow
deriving DecidableEq, Repr

/-- The outcome of a completed `SyncRunner.run_full_sync`: the three
reconciliation mappings, the resulting tables, the enrollment insert
log, and the per-entity counts reported back (`SELECT COUNT(*)` on each
table after the upserts). -/
structure SyncOut where
  progMap : List (String × String)
  acctMap : List (String × String)
  enrMap : List (String × String)
  tables : DbTables
  insertedEnrollments : List EnrRow
  programsCount : Nat
  participantsCount : Nat
  enrollmentsCount : Nat
deriving Repr

/-- `SyncRunner.run_full_sync`, from the point where the three record
sets have been fetched: upsert Programs, then Participants, then
Enrollments, in that order, handing the enrollment upsert exactly the
two mappings returned by the earlier upserts, then report counts.
Salesforce or unexpected errors propagate (`raise`). -/
def run_full_sync (db : DbTables) (rd : RemoteData) (supply : Nat → String) :
    Except String SyncOut :=
  match upsert_programs db.programs rd.programs supply 0 [] with
  | .error e => .error e
  | .ok (progMap, ptbl, ctr1) =>
    match upsert_participants db.participants rd.accounts supply ctr1 [] with
    | .error e => .error e
    | .ok (acctMap, patbl, ctr2) =>
      let (enrMap, etbl, _, insLog) :=
        upsert_enrollments db.enrollments rd.enrollments progMap acctMap supply ctr2 [] []
      .ok ⟨progMap, acctMap, enrMap, ⟨ptbl, patbl, etbl⟩, insLog,
        ptbl.length, patbl.length, etbl.length⟩

/-! ## sync_runner.py — get_sync_status -/

/-- A database value as seen through `fetch_all` row dicts. -/
inductive DbVal where
  | vint : Int → DbVal
  | vstr : String → DbVal
  | vnull : DbVal
deriving DecidableEq, Repr

/-- One row of a `fetch_all` result. -/
abbrev DbRow := List (String × DbVal)

/-- Behaviour of one `fetch_all` call: a row list, or a raised
exception. -/
inductive QueryOutcome where
  | rows : List DbRow → QueryOutcome
  | raise : String → QueryOutcome

/-- The behaviours of the five queries `get_sync_status` runs, in
order: the four `COUNT(*)` queries and the `meta` lookup. This is the
local-database state as `get_sync_status` can observe it, including
failure. -/
structure StatusEnv where
  programsQ : QueryOutcome
  participantsQ : QueryOutcome
  enrollmentsQ : QueryOutcome
  notesQ : QueryOutcome
  metaQ : QueryOutcome

/-- Python `int(v)` on a fetched value: identity on integers, digit
parsing on strings, `TypeError` on NULL. -/
def pyIntOf (v : DbVal) : Except String Int :=
  match v with
  | .vint n => .ok n
  | .vstr s =>
    match s.toInt? with
    | some n => .ok n
    | none => .error ("ValueError: invalid literal for int(): " ++ s)
  | .vnull => .error "TypeError: int() argument is NoneType"

/-- The `_count` helper of `get_sync_status`:
`int(rows[0].get("n", 0)) if rows else 0`. -/
def countQ (q : QueryOutcome) : Except String Int :=
  match q with
  | .raise m => .error m
  | .rows [] => .ok 0
  | .rows (r :: _) => pyIntOf ((lookupS r "n").getD (.vint 0))

/-- The last-sync lookup of `get_sync_status`:
`last_sync[0]["value"] if last_sync else None` (a missing `value` key
raises `KeyError`). -/
def lastSyncQ (q : QueryOutcome) : Except String (Option DbVal) :=
  match q with
  | .raise m => .error m
  | .rows [] => .ok none
  | .rows (r :: _) =>
    match lookupS r "value" with
    | some v => .ok (some v)
    | none => .error "KeyError: value"

/-- The value `SyncRunner.get_sync_status` returns: the healthy shape
with the four counts and the optional last-sync time, or the error
shape carrying the exception message. -/
inductive SyncStatus where
  | healthy (programs participants enrollments notes : Int)
      (lastSyncTime : Option DbVal)
  | errorSt (msg : String)
deriving DecidableEq, Repr

/-- `SyncRunner.get_sync_status`: run the five queries in order inside
a `try`, and turn the first raised exception into the
`{"status": "error", "error": str(e)}` response instead of
propagating it. Total by construction, exactly as the source promises. -/
def get_sync_status (env : StatusEnv) : SyncStatus :=
  match countQ env.programsQ with
  | .error m => .errorSt m
  | .ok p =>
    match countQ env.participantsQ with
    | .error m => .errorSt m
    | .ok pa =>
      match countQ env.enrollmentsQ with
      | .error m => .errorSt m
      | .ok en =>
        match countQ env.notesQ with
        | .error m => .errorSt m
        | .ok no =>
          match lastSyncQ env.metaQ with
          | .error m => .errorSt m
          | .ok ls => .healthy p pa en no ls

/-- Claim-side resolvability for a fetched enrollment row: `Id`,
`ProgramId` and `AccountId` are present non-empty strings and both
parent ids resolve in the respective id-to-uuid mappings. -/
def enrResolvable (progM acctM : List (String × String)) (e : SfEnrRec) : Bool :=
  match e.idF, e.programIdF, e.accountIdF with
  | some i, some p, some a =>
    i ≠ "" && p ≠ "" && a ≠ "" && (lookupS progM p).isSome && (lookupS acctM a).isSome
  | _, _, _ => false

/-- The last row of `rows` whose key is `k` (the row that wins the
replace-by-key semantics). -/
def lastAssign {α : Type} (keyOf : α → String) (rows : List α) (k : String) : Option α :=
  rows.foldl (fun acc r => if keyOf r = k then some r else acc) none

/-! ## Closed forms of the three upserts when every fetched record
carries a stable (non-blank) reconciliation key -/

/-- The local row `upsert_programs` writes for a fetched record whose
`UUID__c` is non-blank. -/
def trProg (r : SfProgramRec) : ProgRow :=
  ⟨pyStrip ((r.uuidF).getD ""), r.idF, r.nameF, r.lastModF⟩

/-- The `Id -> uuid` mapping `upsert_programs` builds in that case. -/
def progMapOf (rows : List SfProgramRec) (acc : List (String × String)) :
    List (String × String) :=
  rows.foldl (fun m r => dictSetS m ((r.idF).getD "") (pyStrip ((r.uuidF).getD ""))) acc

/-- The programs-table evolution of `upsert_programs` in that case. -/
def progFold (tbl : List ProgRow) (rows : List SfProgramRec) : List ProgRow :=
  rows.foldl (fun t r => upsertRowBy ProgRow.uuid t (trProg r)) tbl

/-- The last name `upsert_participants` stores (the `.ok` value of
`_extract_last_name`; unused when that helper raises). -/
def lastNameOf (a : SfAccountRec) : Option String :=
  match extract_last_name a with
  | .ok v => v
  | .error _ => none

/-- The local row `upsert_participants` writes for a person account
whose `UUID__c` is non-blank. -/
def trPart (a : SfAccountRec) : PartRow :=
  ⟨pyStrip ((a.uuidF).getD ""), a.idF, extract_first_name a, lastNameOf a,
    a.personEmail, a.phoneF, a.personBirthdate, a.lastModF⟩

/-- The `Id -> uuid` mapping `upsert_participants` builds in that case. -/
def acctMapOf (rows : List SfAccountRec) (acc : List (String × String)) :
    List (String × String) :=
  rows.foldl (fun m a => if a.isPersonAccount then
    dictSetS m ((a.idF).getD "") (pyStrip ((a.uuidF).getD "")) else m) acc

/-- The participants-table evolution of `upsert_participants` in that
case. -/
def partFold (tbl : List PartRow) (rows : List SfAccountRec) : List PartRow :=
  rows.foldl (fun t a => if a.isPersonAccount then
    upsertRowBy PartRow.uuid t (trPart a) else t) tbl

/-- The local row `upsert_enrollments` writes for an insertable row
whose `UUID__c` is non-blank. -/
def trEnr (e : SfEnrRec) : EnrRow :=
  ⟨pyStrip ((e.uuidF).getD ""), (e.idF).getD "", (e.programIdF).getD "",
    (e.accountIdF).getD "", e.startDateF, e.endDateF, e.statusF,
    e.enteredHmisF, e.exitedHmisF, e.lastModF⟩

/-- The `Id -> uuid` mapping `upsert_enrollments` builds in that case. -/
def enrMapOf (rows : List SfEnrRec) (progM acctM : List (String × String))
    (acc : List (String × String)) : List (String × String) :=
  rows.foldl (fun m e => if enrInsertable progM acctM e then
    dictSetS m ((e.idF).getD "") (pyStrip ((e.uuidF).getD "")) else m) acc

/-- The enrollments-table evolution of `upsert_enrollments` in that
case. -/
def enrFold (tbl : List EnrRow) (rows : List SfEnrRec)
    (progM acctM : List (String × String)) : List EnrRow :=
  rows.foldl (fun t e => if enrInsertable progM acctM e then
    upsertRowBy EnrRow.uuid t (trEnr e) else t) tbl

/-- The enrollment insert log in that case. -/
def enrLogOf (rows : List SfEnrRec) (progM acctM : List (String × String)) :
    List EnrRow :=
  (rows.filter (enrInsertable progM acctM)).map trEnr

/-! ## General lemmas about the association-list helpers -/

theorem lookupS_cons {α : Type} (q : String × α) (qs : List (String × α)) (k : String) :
    lookupS (q :: qs) k = if q.1 = k then some q.2 else lookupS qs k := by
  unfold lookupS
  simp only [List.find?]
  by_cases h : q.1 = k
  · simp [h]
  · simp [h]

theorem lookupS_append {α : Type} (l1 l2 : List (String × α)) (k : String) :
    lookupS (l1 ++ l2) k =
      (match lookupS l1 k with
       | some v => some v
       | none => lookupS l2 k) := by
  induction l1 with
  | nil => rfl
  | cons q qs ih =>
    rw [List.cons_append, lookupS_cons, lookupS_cons]
    by_cases h : q.1 = k
    · simp [h]
    · simp [h, ih]

theorem lookupS_eq_none_of_no_key {α : Type} (m : List (String × α)) (k : String)
    (h : ∀ p ∈ m, p.1 ≠ k) : lookupS m k = none := by
  induction m with
  | nil => rfl
  | cons q qs ih =>
    rw [lookupS_cons, if_neg (h q (List.mem_cons_self q qs))]
    exact ih (fun p hp => h p (List.mem_cons_of_mem q hp))

theorem lookupS_map_set_self {α : Type} (m : List (String × α)) (k : String) (v : α)
    (h : (m.any (fun p => p.1 = k)) = true) :
    lookupS (m.map (fun p => if p.1 = k then (k, v) else p)) k = some v := by
  induction m with
  | nil => simp at h
  | cons q qs ih =>
    simp only [List.map_cons]
    by_cases hq : q.1 = k
    · rw [if_pos hq, lookupS_cons, if_pos rfl]
    · rw [if_neg hq, lookupS_cons, if_neg hq]
      apply ih
      simp only [List.any_cons, Bool.or_eq_true, decide_eq_true_eq] at h
      rcases h with h | h
      · exact absurd h hq
      · simpa using h

theorem lookupS_map_set_ne {α : Type} (m : List (String × α)) (k k' : String) (v : α)
    (h : k ≠ k') :
    lookupS (m.map (fun p => if p.1 = k' then (k', v) else p)) k = lookupS m k := by
  induction m with
  | nil => rfl
  | cons q qs ih =>
    simp only [List.map_cons]
    by_cases hq : q.1 = k'
    · rw [if_pos hq, lookupS_cons, lookupS_cons]
      have hne : ¬((k', v).1 = k) := fun hh => h ((by simpa using hh : k' = k).symm)
      rw [if_neg hne, if_neg (by rw [hq]; exact fun hh => h hh.symm), ih]
    · rw [if_neg hq, lookupS_cons, lookupS_cons, ih]

theorem lookupS_dictSetS_self {α : Type} (m : List (String × α)) (k : String) (v : α) :
    lookupS (dictSetS m k v) k = some v := by
  unfold dictSetS
  split
  case isTrue h => exact lookupS_map_set_self m k v h
  case isFalse h =>
    rw [lookupS_append]
    have h1 : lookupS m k = none := by
      apply lookupS_eq_none_of_no_key
      intro p hp hpk
      exact h (by rw [List.any_eq_true]; exact ⟨p, hp, by simp [hpk]⟩)
    rw [h1, lookupS_cons, if_pos rfl]

theorem lookupS_dictSetS_ne {α : Type} (m : List (String × α)) (k k' : String) (v : α)
    (h : k ≠ k') : lookupS (dictSetS m k' v) k = lookupS m k := by
  unfold dictSetS
  split
  case isTrue _ => exact lookupS_map_set_ne m k k' v h
  case isFalse _ =>
    rw [lookupS_append]
    cases hm : lookupS m k with
    | some v' => rfl
    | none =>
      rw [lookupS_cons]
      have hne : ¬((k', v).1 = k) := fun hh => h ((by simpa using hh : k' = k).symm)
      rw [if_neg hne]
      rfl

/-! ## Claim C2 -/

/-- Claim C2: every call of the audit relay's write operations
(`log_action`, `log_api_access`) returns normally for every behaviour
of the remote audit write, including raised `SFError`s and arbitrary
other exceptions, and a business operation relaying its audit record
through the relay returns its own value unchanged regardless of the
audit outcome. -/
theorem C2_audit_isolation :
    ∀ (a : AuditArgs) (nowIso : String) (remote : WriteOutcome)
      (req : ApiRequest) (args : ApiAccessArgs),
      (log_action a nowIso remote).isOk = true ∧
      (∀ (α : Type) (v : α), withAudit a nowIso remote v = Except.ok v) ∧
      (log_api_access req args nowIso remote).isOk = true := by
  intro a nowIso remote req args
  refine ⟨?_, ?_, ?_⟩
  · cases remote <;> rfl
  · intro α v
    cases remote <;> rfl
  · unfold log_api_access
    split
    · rfl
    · cases remote <;> rfl

/-! ## Claim C6 -/

/-- Claim C6: `_get_token` serves the cached `(token, instance_url)`
pair without authenticating while more than 30 seconds of validity
remain; otherwise it authenticates and, on success, caches the new
token with an expiry 14 minutes in the future; and any later call
within the cached validity window performs no re-authentication and
returns the same token. -/
theorem C6_token_cache :
    ∀ (cache : Option TokenCache) (now : Int) (auth : AuthOutcome),
      (∀ c, cache = some c → c.expiresAt - now > 30 →
        get_token cache now auth =
          ⟨Except.ok (c.accessToken, c.instanceUrl), some c, false⟩) ∧
      ((match cache with
        | some c => c.expiresAt - now ≤ 30
        | none => True) →
        (get_token cache now auth).didAuth = true ∧
        (∀ t u, auth = .success t u →
          (get_token cache now auth).result = Except.ok (t, u) ∧
          (get_token cache now auth).cache = some ⟨t, u, now + 14 * 60⟩ ∧
          now < now + 14 * 60)) ∧
      (∀ t u later auth2, (now + 14 * 60) - later > 30 →
        get_token (some ⟨t, u, now + 14 * 60⟩) later auth2 =
          ⟨Except.ok (t, u), some ⟨t, u, now + 14 * 60⟩, false⟩) := by
  intro cache now auth
  refine ⟨?_, ?_, ?_⟩
  · rintro c rfl hfresh
    show (if c.expiresAt - now > 30 then _ else _) = _
    rw [if_pos hfresh]
  · intro hstale
    cases cache with
    | none =>
      constructor
      · cases auth <;> rfl
      · rintro t u rfl
        exact ⟨rfl, rfl, by omega⟩
    | some c =>
      have hle : ¬(c.expiresAt - now > 30) := by simp only at hstale; omega
      constructor
      · show ((if c.expiresAt - now > 30 then _ else _) : TokenResult).didAuth = true
        rw [if_neg hle]
        cases auth <;> rfl
      · rintro t u rfl
        have heq : get_token (some c) now (.success t u) =
            ⟨.ok (t, u), some ⟨t, u, now + 14 * 60⟩, true⟩ := by
          show (if c.expiresAt - now > 30 then _ else _) = _
          rw [if_neg hle]
        rw [heq]
        exact ⟨rfl, rfl, by omega⟩
  · intro t u later auth2 hwin
    show (if (now + 14 * 60 : Int) - later > 30 then _ else _) = _
    rw [if_pos hwin]

/-- Witness for C6: at a concrete cache and clock, a call inside the
validity window serves the cache without authenticating, and a call
against a stale cache authenticates and stores an expiry 840 seconds
ahead. -/
theorem C6_witness :
    get_token (some ⟨"tok", "url", 100⟩) 0 (.success "t2" "u2") =
      ⟨Except.ok ("tok", "url"), some ⟨"tok", "url", 100⟩, false⟩ ∧
    (get_token (some ⟨"tok", "url", 20⟩) 0 (.success "t2" "u2")).didAuth = true ∧
    (get_token (some ⟨"tok", "url", 20⟩) 0 (.success "t2" "u2")).cache =
      some ⟨"t2", "u2", 840⟩ := by
  refine ⟨(C6_token_cache (some ⟨"tok", "url", 100⟩) 0 (.success "t2" "u2")).1 _ rfl (by decide),
    ?_, ?_⟩
  · exact ((C6_token_cache (some ⟨"tok", "url", 20⟩) 0 (.success "t2" "u2")).2.1 (by decide)).1
  · exact (((C6_token_cache (some ⟨"tok", "url", 20⟩) 0 (.success "t2" "u2")).2.1
      (by decide)).2 "t2" "u2" rfl).2.1

/-! ## Claim C10 -/

/-- Claim C10: `get_sync_status` is total: for every local database
behaviour it returns either the healthy status carrying the four
counts and the stored last-sync value (`none` when the meta table has
no `last_sync_time` row), or the error status carrying the message of
the first raised exception, and it never propagates an exception. -/
theorem C10_sync_status_total :
    ∀ (env : StatusEnv),
      ((∃ p pa en no ls, get_sync_status env = .healthy p pa en no ls) ∨
        (∃ m, get_sync_status env = .errorSt m)) ∧
      (∀ p pa en no ls,
        countQ env.programsQ = .ok p → countQ env.participantsQ = .ok pa →
        countQ env.enrollmentsQ = .ok en → countQ env.notesQ = .ok no →
        lastSyncQ env.metaQ = .ok ls →
        get_sync_status env = .healthy p pa en no ls) ∧
      (∀ m, env.programsQ = .raise m → get_sync_status env = .errorSt m) ∧
      (env.metaQ = .rows [] →
        ∀ p pa en no ls, get_sync_status env = .healthy p pa en no ls → ls = none) := by
  intro env
  refine ⟨?_, ?_, ?_, ?_⟩
  · unfold get_sync_status
    cases countQ env.programsQ with
    | error m => exact Or.inr ⟨m, rfl⟩
    | ok p =>
      cases countQ env.participantsQ with
      | error m => exact Or.inr ⟨m, rfl⟩
      | ok pa =>
        cases countQ env.enrollmentsQ with
        | error m => exact Or.inr ⟨m, rfl⟩
        | ok en =>
          cases countQ env.notesQ with
          | error m => exact Or.inr ⟨m, rfl⟩
          | ok no =>
            cases lastSyncQ env.metaQ with
            | error m => exact Or.inr ⟨m, rfl⟩
            | ok ls => exact Or.inl ⟨p, pa, en, no, ls, rfl⟩
  · intro p pa en no ls h1 h2 h3 h4 h5
    unfold get_sync_status
    rw [h1, h2, h3, h4, h5]
  · intro m hm
    unfold get_sync_status
    have : countQ env.programsQ = .error m := by rw [hm]; rfl
    rw [this]
  · intro hmeta p pa en no ls h
    have hls : lastSyncQ env.metaQ = .ok none := by rw [hmeta]; rfl
    unfold get_sync_status at h
    rcases h1 : countQ env.programsQ with m | cp <;> rw [h1] at h
    · exact absurd h (by simp)
    rcases h2 : countQ env.participantsQ with m | cpa <;> rw [h2] at h
    · exact absurd h (by simp)
    rcases h3 : countQ env.enrollmentsQ with m | cen <;> rw [h3] at h
    · exact absurd h (by simp)
    rcases h4 : countQ env.notesQ with m | cno <;> rw [h4] at h
    · exact absurd h (by simp)
    rw [hls] at h
    cases h
    rfl

/-- Witness for C10: concrete healthy and error database behaviours,
routed through the theorem. -/
theorem C10_witness :
    get_sync_status ⟨.rows [[("n", .vint 3)]], .rows [[("n", .vint 2)]],
        .rows [[("n", .vint 5)]], .rows [], .rows []⟩ =
      .healthy 3 2 5 0 none ∧
    get_sync_status ⟨.raise "db locked", .rows [], .rows [], .rows [], .rows []⟩ =
      .errorSt "db locked" := by
  constructor
  · exact (C10_sync_status_total _).2.1 3 2 5 0 none rfl rfl rfl rfl rfl
  · exact (C10_sync_status_total _).2.2.1 "db locked" rfl

/-! ## Claim C9 -/

theorem log_action_always_ok (a : AuditArgs) (nowIso : String) (remote : WriteOutcome) :
    ∃ o, log_action a nowIso remote = .ok o := by
  cases remote <;> exact ⟨_, rfl⟩

theorem get_action_type_combine (method path : String) (pr : String × String)
    (hfind : PHI_ACCESS_PATTERNS.find? (fun q => startsW path q.1) = some pr) :
    get_action_type method path = combineAction pr.2 (verbOfMethod method) := by
  unfold get_action_type verbOfMethod combineAction
  rw [hfind]
  by_cases h1 : upperStr method = "POST"
  · simp [h1]
  · by_cases h2 : upperStr method = "PUT" ∨ upperStr method = "PATCH"
    · simp [h1, h2]
    · by_cases h3 : upperStr method = "DELETE"
      · simp [h1, h2, h3]
      · simp [h1, h2, h3]

theorem log_api_access_phi_shape (req : ApiRequest) (args : ApiAccessArgs)
    (nowIso : String) (remote : WriteOutcome)
    (hphi : is_phi_endpoint req.path = true) :
    ∃ o, log_api_access req args nowIso remote =
      .ok (some ⟨get_action_type req.method req.path,
        get_event_type args.responseStatus, o⟩) := by
  unfold log_api_access
  rw [hphi]
  cases remote <;> exact ⟨_, rfl⟩

/-- Claim C9: `log_api_access` writes no audit record for a path that
starts with an excluded (non-PHI) prefix or matches no PHI path prefix;
when a PHI prefix matches, the audited action code is the first
matching prefix's canonical action noun combined with the operation
verb of the HTTP method (a `_CREATE`/`_MODIFY`/`_DELETE` suffix for
POST, PUT/PATCH and DELETE; the bare noun for GET-style methods). -/
theorem C9_audit_classification :
    ∀ (req : ApiRequest) (args : ApiAccessArgs) (nowIso : String) (remote : WriteOutcome),
      ((NON_PHI_ENDPOINTS.any (fun e => startsW req.path e) = true ∨
        (∀ pr ∈ PHI_ACCESS_PATTERNS, startsW req.path pr.1 = false)) →
        log_api_access req args nowIso remote = .ok none) ∧
      (is_phi_endpoint req.path = true →
        ∃ pr w, PHI_ACCESS_PATTERNS.find? (fun q => startsW req.path q.1) = some pr ∧
          log_api_access req args nowIso remote = .ok (some w) ∧
          w.actionType = combineAction pr.2 (verbOfMethod req.method)) := by
  intro req args nowIso remote
  constructor
  · intro h
    have hphi : is_phi_endpoint req.path = false := by
      unfold is_phi_endpoint
      rcases h with h | h
      · rw [if_pos h]
      · split
        · rfl
        · rw [List.any_eq_false]
          intro pr hpr
          simp [h pr hpr]
    unfold log_api_access
    rw [hphi]
    rfl
  · intro hphi
    have hany : PHI_ACCESS_PATTERNS.any (fun pr => startsW req.path pr.1) = true := by
      unfold is_phi_endpoint at hphi
      by_cases hex : NON_PHI_ENDPOINTS.any (fun e => startsW req.path e) = true
      · rw [if_pos hex] at hphi; cases hphi
      · rw [if_neg hex] at hphi; exact hphi
    have hfound : ∃ pr, PHI_ACCESS_PATTERNS.find? (fun q => startsW req.path q.1) = some pr := by
      cases hf : PHI_ACCESS_PATTERNS.find? (fun q => startsW req.path q.1) with
      | some pr => exact ⟨pr, rfl⟩
      | none =>
        rw [List.any_eq_true] at hany
        obtain ⟨pr, hmem, hpr⟩ := hany
        exact absurd hpr (by simpa using List.find?_eq_none.mp hf pr hmem)
    obtain ⟨pr, hfind⟩ := hfound
    obtain ⟨o, ho⟩ := log_api_access_phi_shape req args nowIso remote hphi
    exact ⟨pr, _, hfind, ho, get_action_type_combine req.method req.path pr hfind⟩

/-- Witness for C9: a health-check path is not audited; a GET on
`/api/person/...` is audited as the bare noun `ACCESS_PERSON`; a POST on
`/api/quick-person-account` is audited as `CREATE_PERSON_CREATE`. -/
theorem C9_witness :
    log_api_access ⟨"GET", "/health", "1.2.3.4"⟩ ⟨200, none, [], 5, none, none⟩ "t0" .ok =
      .ok none ∧
    (∃ pr w, PHI_ACCESS_PATTERNS.find? (fun q => startsW "/api/person/42" q.1) = some pr ∧
      log_api_access ⟨"GET", "/api/person/42", "1.2.3.4"⟩ ⟨200, none, [], 5, none, none⟩
        "t0" .ok = .ok (some w) ∧
      w.actionType = combineAction pr.2 (verbOfMethod "GET")) := by
  constructor
  · exact (C9_audit_classification ⟨"GET", "/health", "1.2.3.4"⟩
      ⟨200, none, [], 5, none, none⟩ "t0" .ok).1 (Or.inl (by decide))
  · exact (C9_audit_classification ⟨"GET", "/api/person/42", "1.2.3.4"⟩
      ⟨200, none, [], 5, none, none⟩ "t0" .ok).2 (by decide)

/-! ## Claim C1 -/

/-- Counterexample to claim C1 as stated: the Person Account push of
`api/sync.py` (`POST /sync/PersonAccount`) does not return a
success-shaped `synced: false` response when the remote create fails —
it surfaces the failure as an `HTTPException` with status 500. Here the
remote query finds no existing record and the remote create raises. -/
theorem C1_counterexample :
    (sync_person_account "loc-1" [("firstName", "Jo")]
        ⟨[], ["LastName", "FirstName", "UUID__c"], none, 0⟩
        (.failCreate "network down")).1 =
      Except.error ⟨500, "Failed to sync Person Account to Salesforce.", "network down"⟩ ∧
    ((sync_person_account "loc-1" [("firstName", "Jo")]
        ⟨[], ["LastName", "FirstName", "UUID__c"], none, 0⟩
        (.failCreate "network down")).1).isOk = false := by
  exact ⟨rfl, rfl⟩

theorem mem_upsertOutreachRow_self (tbl : List OutreachRow) (r : OutreachRow) :
    r ∈ upsertOutreachRow tbl r := by
  unfold upsertOutreachRow
  split
  case isTrue h =>
    rw [List.any_eq_true] at h
    obtain ⟨x, hx, hxk⟩ := h
    rw [List.mem_map]
    exact ⟨x, hx, by simp only [decide_eq_true_eq] at hxk; rw [if_pos hxk]⟩
  case isFalse _ => exact List.mem_append_right _ (List.mem_singleton.mpr rfl)

/-- Claim C1, amended: the outreach push
(`POST /api/quick-person-account`) does return the success-shaped
`{localId, synced: false}` on remote failure, with the participant
stored locally unsynced (`sfid` NULL); but the `/sync/PersonAccount`
push surfaces any remote failure as an HTTP 500 error instead. -/
theorem C1_amended_offline_push :
    ∀ (payload : List (String × String)) (tbl : List OutreachRow) (freshId : String)
      (org : SfOrg) (m : String),
      (create_quick_person_account payload tbl freshId org (.failCreate m)).1 =
        .ok ⟨freshId, none, false⟩ ∧
      (∃ r, r ∈ (create_quick_person_account payload tbl freshId org (.failCreate m)).2.1 ∧
        r.uuid = freshId ∧ r.sfid = none) ∧
      (∀ localId person,
        (sync_person_account localId person org (.failQuery m)).1 =
          .error ⟨500, "Failed to sync Person Account to Salesforce.", m⟩) ∧
      (∀ localId person, queryAccountIdByUuid org localId = none →
        (sync_person_account localId person org (.failCreate m)).1 =
          .error ⟨500, "Failed to sync Person Account to Salesforce.", m⟩) := by
  intro payload tbl freshId org m
  refine ⟨rfl, ⟨⟨freshId, none, (lookupS payload "firstName").getD "",
    (lookupS payload "lastName").getD "", lookupS payload "deviceId"⟩,
    mem_upsertOutreachRow_self tbl _, rfl, rfl⟩, fun localId person => rfl, ?_⟩
  intro localId person hq
  unfold sync_person_account
  rw [hq]

/-- Witness for C1's amended theorem at concrete inputs. -/
theorem C1_amended_witness :
    (create_quick_person_account [("firstName", "Jo")] [] "lid-1"
        ⟨[], ["LastName", "UUID__c"], none, 0⟩ (.failCreate "offline")).1 =
      .ok ⟨"lid-1", none, false⟩ ∧
    (sync_person_account "lid-1" [] ⟨[], ["LastName", "UUID__c"], none, 0⟩
        (.failCreate "offline")).1 =
      .error ⟨500, "Failed to sync Person Account to Salesforce.", "offline"⟩ := by
  exact ⟨(C1_amended_offline_push [("firstName", "Jo")] [] "lid-1"
      ⟨[], ["LastName", "UUID__c"], none, 0⟩ "offline").1,
    (C1_amended_offline_push [("firstName", "Jo")] [] "lid-1"
      ⟨[], ["LastName", "UUID__c"], none, 0⟩ "offline").2.2.2 "lid-1" [] rfl⟩

/-! ## Claim C5 -/

theorem foldl_keepStep_eq_filterMap (org : SfOrg) (es : List (String × Option String))
    (acc : List (String × String)) :
    es.foldl (keepStep org) acc = acc ++ es.filterMap (keepField org) := by
  induction es generalizing acc with
  | nil => simp
  | cons kv rest ih =>
    cases hf : keepField org kv with
    | some e => simp [List.foldl_cons, List.filterMap_cons, hf, ih, keepStep]
    | none => simp [List.foldl_cons, List.filterMap_cons, hf, ih, keepStep]

theorem keepField_key (org : SfOrg) (kv : String × Option String)
    (e : String × String) (h : keepField org kv = some e) : e.1 = kv.1 := by
  unfold keepField at h
  rcases kv with ⟨k, v?⟩
  cases v? with
  | none => cases h
  | some v =>
    simp only at h
    split at h
    · cases h
    · split at h
      · cases h
      · split at h
        · cases h; rfl
        · cases h

theorem lookupS_filterMap_keep_of_find? (org : SfOrg) (es : List (String × Option String))
    (k : String) (kv0 : String × Option String) (e0 : String × String)
    (hfind : es.find? (fun kv => kv.1 = k) = some kv0)
    (hkeep : keepField org kv0 = some e0) :
    lookupS (es.filterMap (keepField org)) k = some e0.2 := by
  induction es with
  | nil => cases hfind
  | cons q qs ih =>
    rw [List.filterMap_cons]
    by_cases hq : q.1 = k
    · have heq : q = kv0 := by
        have h0 := hfind
        simp only [List.find?] at h0
        rw [show (decide (q.1 = k)) = true by simpa using hq] at h0
        exact Option.some_inj.mp h0
      subst heq
      rw [hkeep, lookupS_cons,
        if_pos (by rw [keepField_key org q e0 hkeep]; exact hq)]
    · have hfind' : qs.find? (fun kv => kv.1 = k) = some kv0 := by
        have h0 := hfind
        simp only [List.find?] at h0
        rw [show (decide (q.1 = k)) = false by simpa using hq] at h0
        exact h0
      cases hk : keepField org q with
      | none => exact ih hfind'
      | some e =>
        rw [lookupS_cons, if_neg (by rw [keepField_key org q e hk]; exact hq)]
        exact ih hfind'

theorem payload_uuid (person : List (String × String)) (org : SfOrg) (u : String)
    (huuid : lookupS person "uuid" = some u)
    (hne : pyStrip u ≠ "")
    (hfld : org.accountFieldSet.contains "UUID__c" = true) :
    lookupS (buildPersonPayload person org) "UUID__c" = some u := by
  have hfind : (personBaseFields person org.personRtId).find?
      (fun kv => kv.1 = "UUID__c") = some ("UUID__c", lookupS person "uuid") := by
    unfold personBaseFields
    rfl
  rw [huuid] at hfind
  have hkeep : keepField org ("UUID__c", some u) = some ("UUID__c", u) := by
    unfold keepField
    simp only
    rw [if_neg hne]
    rw [if_neg (by simp)]
    rw [if_pos hfld]
  have hlook : lookupS (keptFields person org) "UUID__c" = some u := by
    unfold keptFields
    rw [foldl_keepStep_eq_filterMap, List.nil_append]
    exact lookupS_filterMap_keep_of_find? org _ "UUID__c" _ _ hfind hkeep
  unfold buildPersonPayload
  split
  · rw [lookupS_dictSetS_ne _ _ _ _ (by decide)]
    exact hlook
  · exact hlook

theorem C5_push_idempotent :
    ∀ (localId : String) (person : List (String × String)) (org : SfOrg),
      pyStrip localId ≠ "" →
      org.accountFieldSet.contains "UUID__c" = true →
      queryAccountIdByUuid org localId = none →
      ∃ sfId org1,
        sync_person_account localId person org .healthy = (.ok ⟨localId, sfId⟩, org1) ∧
        org1.accounts.length = org.accounts.length + 1 ∧
        sync_person_account localId person org1 .healthy = (.ok ⟨localId, sfId⟩, org1) ∧
        (org1.accounts.filter
          (fun a => lookupS a.fields "UUID__c" = some localId)).length = 1 := by
  intro localId person org hne hfld hq
  have hfindnone : org.accounts.find?
      (fun acc => lookupS acc.fields "UUID__c" = some localId) = none := by
    unfold queryAccountIdByUuid at hq
    exact Option.map_eq_none'.mp hq
  refine ⟨genSfId org.nextId,
    ⟨org.accounts ++ [⟨genSfId org.nextId,
        buildPersonPayload (dictSetS person "uuid" localId) org⟩],
      org.accountFieldSet, org.personRtId, org.nextId + 1⟩, ?_, by simp, ?_, ?_⟩
  · unfold sync_person_account
    rw [hq]
    rfl
  · have hpay : lookupS (buildPersonPayload (dictSetS person "uuid" localId) org)
        "UUID__c" = some localId :=
      payload_uuid _ org localId (lookupS_dictSetS_self person "uuid" localId) hne hfld
    have hq1 : queryAccountIdByUuid
        ⟨org.accounts ++ [⟨genSfId org.nextId,
            buildPersonPayload (dictSetS person "uuid" localId) org⟩],
          org.accountFieldSet, org.personRtId, org.nextId + 1⟩ localId =
        some (genSfId org.nextId) := by
      unfold queryAccountIdByUuid
      simp only
      rw [List.find?_append, hfindnone]
      simp [List.find?, hpay]
    unfold sync_person_account
    rw [hq1]
  · have hpay : lookupS (buildPersonPayload (dictSetS person "uuid" localId) org)
        "UUID__c" = some localId :=
      payload_uuid _ org localId (lookupS_dictSetS_self person "uuid" localId) hne hfld
    simp only
    rw [List.filter_append]
    have h1 : org.accounts.filter
        (fun a => lookupS a.fields "UUID__c" = some localId) = [] := by
      rw [List.filter_eq_nil_iff]
      intro a ha
      have := List.find?_eq_none.mp hfindnone a ha
      simpa using this
    rw [h1]
    simp [List.filter, hpay]

/-- Witness for C5: pushing a concrete Person Account twice against an
initially empty org creates exactly one remote record, and the second
push returns the same Salesforce id. -/
theorem C5_witness :
    pyStrip "uuid-0001" ≠ "" ∧
    (∃ sfId org1,
      sync_person_account "uuid-0001" [("firstName", "Jo")]
          ⟨[], ["LastName", "FirstName", "UUID__c"], none, 0⟩ .healthy =
        (.ok ⟨"uuid-0001", sfId⟩, org1) ∧
      org1.accounts.length = 0 + 1 ∧
      sync_person_account "uuid-0001" [("firstName", "Jo")] org1 .healthy =
        (.ok ⟨"uuid-0001", sfId⟩, org1) ∧
      (org1.accounts.filter
        (fun a => lookupS a.fields "UUID__c" = some "uuid-0001")).length = 1) := by
  refine ⟨by decide, ?_⟩
  have h := C5_push_idempotent "uuid-0001" [("firstName", "Jo")]
    ⟨[], ["LastName", "FirstName", "UUID__c"], none, 0⟩ (by decide) (by decide) rfl
  simpa using h

/-! ## Claim C4 -/

/-- For mappings whose values are never the empty string — which is
what `ensure_uuid` guarantees for the mappings the sync builds — the
code's skip test coincides with claim-side resolvability. -/
theorem enrInsertable_eq_resolvable (progM acctM : List (String × String)) (e : SfEnrRec)
    (hp : ∀ kv ∈ progM, kv.2 ≠ "") (ha : ∀ kv ∈ acctM, kv.2 ≠ "") :
    enrInsertable progM acctM e = enrResolvable progM acctM e := by
  unfold enrInsertable enrResolvable
  cases e.idF <;> cases e.programIdF <;> cases e.accountIdF <;> try rfl
  rename_i i p a
  cases hl : lookupS progM p with
  | none => simp [hl]
  | some u =>
    have hu : u ≠ "" := by
      have : (p, u) ∈ progM := by
        unfold lookupS at hl
        cases hf : progM.find? (fun q => q.1 = p) with
        | none => rw [hf] at hl; cases hl
        | some q =>
          rw [hf] at hl
          have hq := List.find?_some hf
          have hmem := List.mem_of_find?_eq_some hf
          simp only [Option.map_some'] at hl
          cases hl
          simp only [decide_eq_true_eq] at hq
          rw [← hq]
          simpa using hmem
      exact hp _ this
    cases hl2 : lookupS acctM a with
    | none => simp [hl, hl2]
    | some u2 =>
      have hu2 : u2 ≠ "" := by
        have : (a, u2) ∈ acctM := by
          unfold lookupS at hl2
          cases hf : acctM.find? (fun q => q.1 = a) with
          | none => rw [hf] at hl2; cases hl2
          | some q =>
            rw [hf] at hl2
            have hq := List.find?_some hf
            have hmem := List.mem_of_find?_eq_some hf
            simp only [Option.map_some'] at hl2
            cases hl2
            simp only [decide_eq_true_eq] at hq
            rw [← hq]
            simpa using hmem
        exact ha _ this
      simp [hl, hl2, hu, hu2]

theorem upsert_enrollments_log (rows : List SfEnrRec)
    (tbl : List EnrRow) (progM acctM : List (String × String))
    (supply : Nat → String) (ctr : Nat) (acc : List (String × String))
    (insLog : List EnrRow) :
    (upsert_enrollments tbl rows progM acctM supply ctr acc insLog).2.2.2.map EnrRow.sfid =
      insLog.map EnrRow.sfid ++
        (rows.filter (enrInsertable progM acctM)).map (fun e => (e.idF).getD "") := by
  induction rows generalizing tbl ctr acc insLog with
  | nil => simp [upsert_enrollments]
  | cons e rs ih =>
    by_cases h : enrInsertable progM acctM e = true
    · have h3 : ∃ i p a, e.idF = some i ∧ e.programIdF = some p ∧ e.accountIdF = some a := by
        unfold enrInsertable at h
        cases hi : e.idF <;> rw [hi] at h
        · cases h
        cases hp : e.programIdF <;> rw [hp] at h
        · cases h
        cases ha : e.accountIdF <;> rw [ha] at h
        · cases h
        exact ⟨_, _, _, rfl, rfl, rfl⟩
      obtain ⟨i, p, a, hi, hp, ha⟩ := h3
      have hstep : upsert_enrollments tbl (e :: rs) progM acctM supply ctr acc insLog =
          upsert_enrollments
            (upsertRowBy EnrRow.uuid tbl
              ⟨ensure_uuid e.uuidF (supply ctr), i, p, a, e.startDateF, e.endDateF,
                e.statusF, e.enteredHmisF, e.exitedHmisF, e.lastModF⟩)
            rs progM acctM supply
            (if needsFresh e.uuidF then ctr + 1 else ctr)
            (dictSetS acc i (ensure_uuid e.uuidF (supply ctr)))
            (insLog ++ [⟨ensure_uuid e.uuidF (supply ctr), i, p, a, e.startDateF,
              e.endDateF, e.statusF, e.enteredHmisF, e.exitedHmisF, e.lastModF⟩]) := by
        simp only [upsert_enrollments]
        rw [if_pos h, hi, hp, ha]
      rw [hstep, ih, List.filter_cons_of_pos h]
      simp [hi]
    · have hstep : upsert_enrollments tbl (e :: rs) progM acctM supply ctr acc insLog =
          upsert_enrollments tbl rs progM acctM supply ctr acc insLog := by
        simp only [upsert_enrollments]
        rw [if_neg h]
      rw [hstep, ih, List.filter_cons_of_neg h]

/-- Claim C4: `upsert_enrollments` hands a row to the local insert if
and only if the row has (non-empty) string `Id`, `ProgramId` and
`AccountId` values and both parent references resolve in the supplied
mappings; unresolvable rows are dropped without error (the function is
total), and the number of inserted rows equals the number of rows with
resolvable references. The hypotheses say the mappings carry no
empty-string uuid, which is what `ensure_uuid` guarantees for the
mappings the sync runner builds. -/
theorem C4_referential_drop :
    ∀ (tbl : List EnrRow) (rows : List SfEnrRec) (progM acctM : List (String × String))
      (supply : Nat → String) (ctr : Nat),
      (∀ kv ∈ progM, kv.2 ≠ "") → (∀ kv ∈ acctM, kv.2 ≠ "") →
      ((upsert_enrollments tbl rows progM acctM supply ctr [] []).2.2.2.map EnrRow.sfid =
        (rows.filter (enrResolvable progM acctM)).map (fun e => (e.idF).getD "")) ∧
      ((upsert_enrollments tbl rows progM acctM supply ctr [] []).2.2.2.length =
        (rows.filter (enrResolvable progM acctM)).length) := by
  intro tbl rows progM acctM supply ctr hp ha
  have hfilter : rows.filter (enrInsertable progM acctM) =
      rows.filter (enrResolvable progM acctM) :=
    List.filter_congr (fun e _ => enrInsertable_eq_resolvable progM acctM e hp ha)
  have hlog := upsert_enrollments_log rows tbl progM acctM supply ctr [] []
  rw [hfilter] at hlog
  simp only [List.map_nil, List.nil_append] at hlog
  refine ⟨hlog, ?_⟩
  have := congrArg List.length hlog
  simpa using this

/-- Witness for C4 at the spec's own example scenario: enrollment E1
resolves (program P1, account A1) and is inserted; E2 references the
unfetched P9/A2 and is dropped. -/
theorem C4_witness :
    ((upsert_enrollments []
        [⟨some "E1", some "P1", some "A1", some "u-e1", some "2024-01-01", none,
            some "Active", false, false, none⟩,
          ⟨some "E2", some "P9", some "A2", none, some "2024-01-01", none,
            some "Active", false, false, none⟩]
        [("P1", "u-p1")] [("A1", "u-a1")] (fun n => "gen" ++ toString n) 0 [] []).2.2.2.map
          EnrRow.sfid =
        (([⟨some "E1", some "P1", some "A1", some "u-e1", some "2024-01-01", none,
            some "Active", false, false, none⟩,
          ⟨some "E2", some "P9", some "A2", none, some "2024-01-01", none,
            some "Active", false, false, none⟩] : List SfEnrRec).filter
          (enrResolvable [("P1", "u-p1")] [("A1", "u-a1")])).map
            (fun e => (e.idF).getD "")) ∧
    ((upsert_enrollments []
        [⟨some "E1", some "P1", some "A1", some "u-e1", some "2024-01-01", none,
            some "Active", false, false, none⟩,
          ⟨some "E2", some "P9", some "A2", none, some "2024-01-01", none,
            some "Active", false, false, none⟩]
        [("P1", "u-p1")] [("A1", "u-a1")] (fun n => "gen" ++ toString n) 0 [] []).2.2.2.map
          EnrRow.sfid = ["E1"]) := by
  constructor
  · exact (C4_referential_drop [] _ [("P1", "u-p1")] [("A1", "u-a1")]
      (fun n => "gen" ++ toString n) 0 (by decide) (by decide)).1
  · rfl

/-! ## Claim C7 -/

theorem lookupS_map_fst_pres {α β : Type} (g : (String × α) → (String × β))
    (hg : ∀ kv, (g kv).1 = kv.1) (es : List (String × α)) (k : String) :
    lookupS (es.map g) k = (lookupS es k).map (fun v => (g (k, v)).2) := by
  induction es with
  | nil => rfl
  | cons q qs ih =>
    rw [List.map_cons, lookupS_cons, lookupS_cons]
    by_cases hq : q.1 = k
    · rw [if_pos (by rw [hg q]; exact hq), if_pos hq]
      subst hq
      simp
    · rw [if_neg (by rw [hg q]; exact hq), if_neg hq, ih]

theorem jget_cons_container (w : JVal) (s : JStep) (p : List JStep) (v : JVal)
    (h : jget w (s :: p) = some v) : isContainerJ w = true := by
  cases w <;> cases s <;> first
    | rfl
    | (exact absurd h (by simp [jget]))

/-- The redaction walk commutes with path resolution: a container `v`
found at a walked path `p` of length at most the remaining fuel shows
up in the redacted output as its own redaction with the fuel decreased
by the depth. -/
theorem redact_jget_comm :
    ∀ (p : List JStep) (fuel : Nat) (c v : JVal),
      walkedPath p = true → p.length ≤ fuel → jget c p = some v →
      isContainerJ v = true →
      jget (redactAux fuel c) p = some (redactAux (fuel - p.length) v) := by
  intro p
  induction p with
  | nil =>
    intro fuel c v _ _ h _
    have : c = v := by simpa [jget] using h
    subst this
    simp [jget]
  | cons s p' ih =>
    intro fuel c v hw hlen h hv
    have hw1 : stepWalked s = true ∧ walkedPath p' = true := by
      simpa [walkedPath] using hw
    cases fuel with
    | zero => exact absurd hlen (by simp)
    | succ f =>
      have hlen' : p'.length ≤ f := by simpa using hlen
      cases s with
      | fld k =>
        have hks : isSensitiveName k = false := by
          have := hw1.1
          simpa [stepWalked] using this
        cases c with
        | jdict es =>
          cases hlk : jFieldLookup es k with
          | none => exact absurd h (by simp [jget, hlk])
          | some w =>
            have h' : jget w p' = some v := by
              have h0 := h
              simp only [jget, hlk] at h0
              exact h0
            have hwc : isContainerJ w = true := by
              cases p' with
              | nil =>
                have hwv : w = v := by simpa [jget] using h'
                rw [hwv]; exact hv
              | cons s2 p2 => exact jget_cons_container w s2 p2 v h'
            have hrest : jget (redactAux f w) p' =
                some (redactAux (f + 1 - (JStep.fld k :: p').length) v) := by
              rw [List.length_cons, Nat.succ_sub_succ]
              cases p' with
              | nil =>
                have hwv : w = v := by simpa [jget] using h'
                subst hwv
                simp [jget]
              | cons s2 p2 => exact ih f w v hw1.2 hlen' h' hv
            clear h hw hlen
            simp only [redactAux, jget]
            rw [jFieldLookup, lookupS_map_fst_pres _
              (fun kv => by
                by_cases hkv : isSensitiveName kv.1 <;>
                  simp only [hkv, if_true, if_false, Bool.false_eq_true] <;>
                  cases kv.2 <;> rfl)]
            rw [show lookupS es k = some w from hlk]
            simp only [Option.map_some']
            rw [if_neg (by simp [hks])]
            cases w with
            | jdict es2 => exact hrest
            | jlist xs2 => exact hrest
            | jstr s3 => exact absurd hwc (by simp [isContainerJ])
            | jnum n3 => exact absurd hwc (by simp [isContainerJ])
            | jbool b3 => exact absurd hwc (by simp [isContainerJ])
            | jnull => exact absurd hwc (by simp [isContainerJ])
        | jstr s2 => exact absurd h (by simp [jget])
        | jnum n => exact absurd h (by simp [jget])
        | jbool b => exact absurd h (by simp [jget])
        | jnull => exact absurd h (by simp [jget])
        | jlist xs => exact absurd h (by simp [jget])
      | idx i =>
        have hi10 : i < 10 := by
          have := hw1.1
          simpa [stepWalked] using this
        cases c with
        | jlist xs =>
          cases hget : xs[i]? with
          | none => exact absurd h (by simp [jget, hget])
          | some w =>
            have h' : jget w p' = some v := by
              have h0 := h
              simp only [jget, hget] at h0
              exact h0
            simp only [redactAux, jget]
            rw [List.getElem?_map, List.getElem?_take_of_lt hi10, hget]
            simp only [Option.map_some']
            cases p' with
            | nil =>
              have hwv : w = v := by simpa [jget] using h'
              subst hwv
              simp [jget]
            | cons s2 p2 =>
              have hrec := ih f w v hw1.2 hlen' h' hv
              rw [List.length_cons, Nat.succ_sub_succ]
              exact hrec
        | jstr s2 => exact absurd h (by simp [jget])
        | jnum n => exact absurd h (by simp [jget])
        | jbool b => exact absurd h (by simp [jget])
        | jnull => exact absurd h (by simp [jget])
        | jdict es => exact absurd h (by simp [jget])

/-- Counterexample to claim C7 as stated: the claim promises that every
sensitive key nested at depth below the bound is kept with its value
replaced by the marker ("the key is kept, not omitted"). The walk,
however, truncates every list to its first 10 items (`data[:10]`), so
the sensitive key `password` of the eleventh list item — at depth 1,
well below the bound of 3 — is omitted from the output entirely, while
the same key of the tenth item is kept and redacted. -/
theorem C7_counterexample :
    isSensitiveName "password" = true ∧
    jItem (JVal.jlist (List.replicate 11 (.jdict [("password", .jstr "hunter2")]))) 10 =
      some (.jdict [("password", .jstr "hunter2")]) ∧
    jItem (redact_dict_recursive
        (JVal.jlist (List.replicate 11 (.jdict [("password", .jstr "hunter2")])))) 10 =
      none ∧
    jItem (redact_dict_recursive
        (JVal.jlist (List.replicate 11 (.jdict [("password", .jstr "hunter2")])))) 9 =
      some (.jdict [("password", .jstr "***REDACTED***")]) := by
  refine ⟨by decide, rfl, rfl, rfl⟩

/-- Claim C7, amended: along every path the walk actually follows —
non-sensitive dict keys and list indices within the first ten items
(list items beyond the tenth are dropped) — a sensitive key in a dict
at depth below the bound is kept and its value replaced by the fixed
redaction marker, and every container reached at the bound depth is
replaced wholesale by the depth-exceeded marker rather than leaking its
content. -/
theorem C7_redaction_amended :
    ∀ (c : JVal) (p : List JStep),
      walkedPath p = true →
      (∀ es, p.length < 3 → jget c p = some (.jdict es) →
        ∀ k v, jFieldLookup es k = some v → isSensitiveName k = true →
          ∃ es2, jget (redact_dict_recursive c) p = some (.jdict es2) ∧
            jFieldLookup es2 k = some (.jstr "***REDACTED***")) ∧
      (∀ v, p.length = 3 → jget c p = some v → isContainerJ v = true →
        jget (redact_dict_recursive c) p = some (.jstr "[REDACTED - MAX DEPTH]")) := by
  intro c p hw
  constructor
  · intro es hlt hres k v hlk hks
    have hcomm := redact_jget_comm p 3 c (.jdict es) hw (by omega) hres rfl
    obtain ⟨m, hm⟩ : ∃ m, 3 - p.length = m + 1 := ⟨2 - p.length, by omega⟩
    rw [hm] at hcomm
    refine ⟨es.map
      (fun kv => if isSensitiveName kv.1 then (kv.1, JVal.jstr "***REDACTED***")
        else match kv.2 with
          | .jdict es2 => (kv.1, redactAux m (.jdict es2))
          | .jlist xs => (kv.1, redactAux m (.jlist xs))
          | v2 => (kv.1, v2)), ?_, ?_⟩
    · exact hcomm
    · rw [jFieldLookup, lookupS_map_fst_pres _
        (fun kv => by
          by_cases hkv : isSensitiveName kv.1 <;>
            simp only [hkv, if_true, if_false, Bool.false_eq_true] <;>
            cases kv.2 <;> rfl)]
      rw [show lookupS es k = some v from hlk]
      simp only [Option.map_some']
      rw [if_pos hks]
  · intro v hlen3 hres hcont
    have hcomm := redact_jget_comm p 3 c v hw (by omega) hres hcont
    rw [hlen3] at hcomm
    simpa [redactAux] using hcomm

/-- Witness for C7's amended theorem: in a concrete nested context, the
sensitive key `token` one level down is redacted in place, and a
container three levels down is replaced by the depth marker. -/
theorem C7_amended_witness :
    (∃ es2, jget (redact_dict_recursive
        (JVal.jdict [("a", .jdict [("token", .jstr "secret-value"), ("b", .jnum 1)])]))
        [JStep.fld "a"] = some (.jdict es2) ∧
      jFieldLookup es2 "token" = some (.jstr "***REDACTED***")) ∧
    jget (redact_dict_recursive
        (JVal.jdict [("a", .jdict [("b", .jdict [("c", .jdict [("deep", .jstr "x")])])])]))
        [JStep.fld "a", JStep.fld "b", JStep.fld "c"] =
      some (.jstr "[REDACTED - MAX DEPTH]") := by
  constructor
  · exact (C7_redaction_amended
      (JVal.jdict [("a", .jdict [("token", .jstr "secret-value"), ("b", .jnum 1)])])
      [JStep.fld "a"] (by decide)).1
      [("token", .jstr "secret-value"), ("b", .jnum 1)] (by decide) rfl
      "token" (.jstr "secret-value") rfl (by decide)
  · exact (C7_redaction_amended
      (JVal.jdict [("a", .jdict [("b", .jdict [("c", .jdict [("deep", .jstr "x")])])])])
      [JStep.fld "a", JStep.fld "b", JStep.fld "c"] (by decide)).2
      (.jdict [("deep", .jstr "x")]) rfl rfl rfl

/-! ## Replay machinery for keyed upserts (claims C3 and C8)

`INSERT OR REPLACE` keyed by a primary key is modelled by
`upsertRowBy`; the lemmas below characterise folds of such upserts and
show that replaying the same row sequence is the identity. -/

theorem lastAssign_foldl_init {α : Type} (keyOf : α → String) (rows : List α)
    (k : String) (init : Option α) :
    rows.foldl (fun acc r => if keyOf r = k then some r else acc) init =
      (match lastAssign keyOf rows k with
       | some y => some y
       | none => init) := by
  induction rows generalizing init with
  | nil => rfl
  | cons r rs ih =>
    show rs.foldl _ (if keyOf r = k then some r else init) = _
    rw [ih]
    have hcons : lastAssign keyOf (r :: rs) k =
        (match lastAssign keyOf rs k with
         | some y => some y
         | none => if keyOf r = k then some r else none) := by
      show rs.foldl _ (if keyOf r = k then some r else none) = _
      rw [ih]
    rw [hcons]
    cases lastAssign keyOf rs k with
    | some y => rfl
    | none =>
      by_cases hk : keyOf r = k
      · rw [if_pos hk, if_pos hk]
      · rw [if_neg hk, if_neg hk]

theorem lastAssign_cons {α : Type} (keyOf : α → String) (r : α) (rs : List α)
    (k : String) :
    lastAssign keyOf (r :: rs) k =
      (match lastAssign keyOf rs k with
       | some y => some y
       | none => if keyOf r = k then some r else none) := by
  show rs.foldl _ (if keyOf r = k then some r else none) = _
  rw [lastAssign_foldl_init]

theorem lastAssign_append {α : Type} (keyOf : α → String) (l1 l2 : List α)
    (k : String) :
    lastAssign keyOf (l1 ++ l2) k =
      (match lastAssign keyOf l2 k with
       | some y => some y
       | none => lastAssign keyOf l1 k) := by
  show (l1 ++ l2).foldl _ none = _
  rw [List.foldl_append, lastAssign_foldl_init]
  rfl

theorem keys_upsertRowBy_mem {α : Type} (keyOf : α → String) (tbl : List α) (r : α) :
    ∀ k, k ∈ tbl.map keyOf → k ∈ (upsertRowBy keyOf tbl r).map keyOf := by
  intro k hk
  unfold upsertRowBy
  split
  · rw [List.map_map]
    obtain ⟨x, hx, hxk⟩ := List.mem_map.mp hk
    apply List.mem_map.mpr
    refine ⟨x, hx, ?_⟩
    by_cases hq : keyOf x = keyOf r
    · simp only [Function.comp_apply, if_pos hq]
      rw [← hq, hxk]
    · simp only [Function.comp_apply, if_neg hq]
      exact hxk
  · rw [List.map_append]
    exact List.mem_append_left _ hk

theorem key_self_upsertRowBy {α : Type} (keyOf : α → String) (tbl : List α) (r : α) :
    keyOf r ∈ (upsertRowBy keyOf tbl r).map keyOf := by
  unfold upsertRowBy
  split
  case isTrue h =>
    rw [List.any_eq_true] at h
    obtain ⟨x, hx, hxk⟩ := h
    simp only [decide_eq_true_eq] at hxk
    rw [List.map_map]
    apply List.mem_map.mpr
    exact ⟨x, hx, by simp only [Function.comp_apply, if_pos hxk]⟩
  case isFalse _ =>
    rw [List.map_append]
    exact List.mem_append_right _ (by simp)

theorem keys_foldl_upsert_mono {α : Type} (keyOf : α → String) (rows : List α)
    (t : List α) :
    ∀ k, k ∈ t.map keyOf → k ∈ (rows.foldl (upsertRowBy keyOf) t).map keyOf := by
  induction rows generalizing t with
  | nil => intro k hk; exact hk
  | cons r rs ih =>
    intro k hk
    exact ih (upsertRowBy keyOf t r) k (keys_upsertRowBy_mem keyOf t r k hk)

theorem keys_foldl_upsert_present {α : Type} (keyOf : α → String) (rows : List α)
    (t : List α) :
    ∀ r ∈ rows, keyOf r ∈ (rows.foldl (upsertRowBy keyOf) t).map keyOf := by
  induction rows generalizing t with
  | nil => intro r hr; cases hr
  | cons q qs ih =>
    intro r hr
    rcases List.mem_cons.mp hr with rfl | hr'
    · exact keys_foldl_upsert_mono keyOf qs (upsertRowBy keyOf t r) (keyOf r)
        (key_self_upsertRowBy keyOf t r)
    · exact ih (upsertRowBy keyOf t q) r hr'

theorem foldl_upsert_as_map {α : Type} (keyOf : α → String) (rows : List α)
    (t : List α) (h : ∀ r ∈ rows, keyOf r ∈ t.map keyOf) :
    rows.foldl (upsertRowBy keyOf) t =
      t.map (fun x => (lastAssign keyOf rows (keyOf x)).getD x) := by
  induction rows generalizing t with
  | nil =>
    show t = t.map _
    have hid : ∀ x ∈ t, (lastAssign keyOf [] (keyOf x)).getD x = x := fun x _ => rfl
    rw [List.map_congr_left hid]
    simp
  | cons r rs ih =>
    have hr : keyOf r ∈ t.map keyOf := h r (List.mem_cons_self r rs)
    have hany : (t.any (fun x => keyOf x = keyOf r)) = true := by
      rw [List.any_eq_true]
      obtain ⟨x, hx, hxk⟩ := List.mem_map.mp hr
      exact ⟨x, hx, by simp [hxk]⟩
    have hstep : upsertRowBy keyOf t r =
        t.map (fun x => if keyOf x = keyOf r then r else x) := by
      unfold upsertRowBy
      rw [if_pos hany]
    show rs.foldl (upsertRowBy keyOf) (upsertRowBy keyOf t r) = _
    rw [hstep]
    have hkeys : ∀ r' ∈ rs,
        keyOf r' ∈ (t.map (fun x => if keyOf x = keyOf r then r else x)).map keyOf := by
      intro r' hr'
      have hsame : (t.map (fun x => if keyOf x = keyOf r then r else x)).map keyOf =
          t.map keyOf := by
        rw [List.map_map]
        apply List.map_congr_left
        intro x _
        by_cases hx : keyOf x = keyOf r
        · simp only [Function.comp_apply, if_pos hx]
          rw [hx]
        · simp only [Function.comp_apply, if_neg hx]
      rw [hsame]
      exact h r' (List.mem_cons_of_mem r hr')
    rw [ih _ hkeys, List.map_map]
    apply List.map_congr_left
    intro x _
    simp only [Function.comp_apply]
    by_cases hx : keyOf x = keyOf r
    · rw [if_pos hx, lastAssign_cons, hx]
      cases lastAssign keyOf rs (keyOf r) with
      | some y => rfl
      | none =>
        show r = (if keyOf r = keyOf r then some r else none).getD x
        rw [if_pos rfl]
        rfl
    · rw [if_neg hx, lastAssign_cons]
      cases lastAssign keyOf rs (keyOf x) with
      | some y => rfl
      | none =>
        show x = (if keyOf r = keyOf x then some r else none).getD x
        rw [if_neg (fun hh => hx hh.symm)]
        rfl

theorem mem_foldl_upsert_lastAssign {α : Type} (keyOf : α → String) (rows : List α) :
    ∀ (t : List α) (x r' : α), x ∈ rows.foldl (upsertRowBy keyOf) t →
      lastAssign keyOf rows (keyOf x) = some r' → x = r' := by
  induction rows using List.reverseRecOn with
  | nil =>
    intro t x r' _ hla
    cases hla
  | append_singleton rows r ih =>
    intro t x r' hmem hla
    rw [List.foldl_append] at hmem
    rw [lastAssign_append] at hla
    have hsingle : lastAssign keyOf [r] (keyOf x) =
        (if keyOf r = keyOf x then some r else none) := rfl
    rw [hsingle] at hla
    set T := rows.foldl (upsertRowBy keyOf) t with hT
    simp only [List.foldl_cons, List.foldl_nil] at hmem
    by_cases hk : keyOf r = keyOf x
    · rw [if_pos hk] at hla
      simp only at hla
      cases hla
      -- goal: x = r
      unfold upsertRowBy at hmem
      split at hmem
      · obtain ⟨y, _, hy⟩ := List.mem_map.mp hmem
        by_cases hyk : keyOf y = keyOf r
        · rw [if_pos hyk] at hy
          exact hy.symm
        · rw [if_neg hyk] at hy
          rw [← hy] at hk
          exact absurd hk.symm hyk
      · rename_i hno
        rcases List.mem_append.mp hmem with hmemT | hmemr
        · exact absurd (List.any_eq_true.mpr ⟨x, hmemT, by simp [hk.symm]⟩) hno
        · exact (List.mem_singleton.mp hmemr)
    · rw [if_neg hk] at hla
      simp only at hla
      have hmem' : x ∈ T := by
        unfold upsertRowBy at hmem
        split at hmem
        · obtain ⟨y, hyT, hy⟩ := List.mem_map.mp hmem
          by_cases hyk : keyOf y = keyOf r
          · rw [if_pos hyk] at hy
            rw [← hy] at hk
            exact absurd rfl hk
          · rw [if_neg hyk] at hy
            rw [← hy]
            exact hyT
        · rcases List.mem_append.mp hmem with hmemT | hmemr
          · exact hmemT
          · have hxr := List.mem_singleton.mp hmemr
            rw [← hxr] at hk
            exact absurd rfl hk
      exact ih t x r' hmem' hla

/-- Replaying the same upsert sequence over its own result is the
identity: the core of the pull-idempotence claim. -/
theorem foldl_upsert_replay {α : Type} (keyOf : α → String) (rows : List α)
    (t : List α) :
    rows.foldl (upsertRowBy keyOf) (rows.foldl (upsertRowBy keyOf) t) =
      rows.foldl (upsertRowBy keyOf) t := by
  set T := rows.foldl (upsertRowBy keyOf) t with hT
  have hpresent : ∀ r ∈ rows, keyOf r ∈ T.map keyOf := by
    intro r hr
    exact keys_foldl_upsert_present keyOf rows t r hr
  rw [foldl_upsert_as_map keyOf rows T hpresent]
  have hpt : ∀ x ∈ T, (lastAssign keyOf rows (keyOf x)).getD x = x := by
    intro x hx
    cases hla : lastAssign keyOf rows (keyOf x) with
    | none => rfl
    | some r' =>
      have := mem_foldl_upsert_lastAssign keyOf rows t x r' (hT ▸ hx) hla
      rw [this]
      rfl
  rw [List.map_congr_left hpt]
  simp

theorem ensure_uuid_of_not_fresh (u : Option String) (fresh : String)
    (h : needsFresh u = false) : ensure_uuid u fresh = pyStrip (u.getD "") := by
  cases u with
  | none => cases h
  | some s =>
    have hs : pyStrip s ≠ "" := by simpa [needsFresh] using h
    simp [ensure_uuid, hs]

theorem upsert_programs_shape (rows : List SfProgramRec) :
    ∀ (tbl : List ProgRow) (s : Nat → String) (ctr : Nat) (acc : List (String × String)),
      (∀ r ∈ rows, r.idF ≠ none) →
      (∀ r ∈ rows, needsFresh r.uuidF = false) →
      upsert_programs tbl rows s ctr acc =
        .ok (progMapOf rows acc, progFold tbl rows, ctr) := by
  induction rows with
  | nil => intro tbl s ctr acc _ _; rfl
  | cons r rs ih =>
    intro tbl s ctr acc h1 h2
    obtain ⟨rid, hrid⟩ : ∃ rid, r.idF = some rid := by
      cases hi : r.idF with
      | none => exact absurd hi (h1 r (List.mem_cons_self r rs))
      | some rid => exact ⟨rid, rfl⟩
    have hnf : needsFresh r.uuidF = false := h2 r (List.mem_cons_self r rs)
    have hstep : upsert_programs tbl (r :: rs) s ctr acc =
        upsert_programs
          (upsertRowBy ProgRow.uuid tbl
            ⟨ensure_uuid r.uuidF (s ctr), r.idF, r.nameF, r.lastModF⟩)
          rs s (if needsFresh r.uuidF then ctr + 1 else ctr)
          (dictSetS acc rid (ensure_uuid r.uuidF (s ctr))) := by
      simp only [upsert_programs]
      rw [hrid]
    rw [hstep, ensure_uuid_of_not_fresh r.uuidF (s ctr) hnf, hnf]
    simp only [Bool.false_eq_true, if_false]
    rw [ih _ s ctr _ (fun q hq => h1 q (List.mem_cons_of_mem r hq))
      (fun q hq => h2 q (List.mem_cons_of_mem r hq))]
    show _ = Except.ok (progMapOf (r :: rs) acc, progFold tbl (r :: rs), ctr)
    have hmap : progMapOf (r :: rs) acc =
        progMapOf rs (dictSetS acc rid (pyStrip (r.uuidF.getD ""))) := by
      show progMapOf rs (dictSetS acc ((r.idF).getD "") (pyStrip (r.uuidF.getD ""))) = _
      rw [hrid]
      rfl
    have hfold : progFold tbl (r :: rs) =
        progFold (upsertRowBy ProgRow.uuid tbl
          ⟨pyStrip (r.uuidF.getD ""), r.idF, r.nameF, r.lastModF⟩) rs := rfl
    rw [hmap, hfold]

theorem upsert_participants_shape (rows : List SfAccountRec) :
    ∀ (tbl : List PartRow) (s : Nat → String) (ctr : Nat) (acc : List (String × String)),
      (∀ a ∈ rows, a.isPersonAccount = true → a.idF ≠ none) →
      (∀ a ∈ rows, a.isPersonAccount = true → needsFresh a.uuidF = false) →
      (∀ a ∈ rows, a.isPersonAccount = true → (extract_last_name a).isOk = true) →
      upsert_participants tbl rows s ctr acc =
        .ok (acctMapOf rows acc, partFold tbl rows, ctr) := by
  induction rows with
  | nil => intro tbl s ctr acc _ _ _; rfl
  | cons a rs ih =>
    intro tbl s ctr acc h1 h2 h3
    by_cases hpa : a.isPersonAccount = true
    · obtain ⟨rid, hrid⟩ : ∃ rid, a.idF = some rid := by
        cases hi : a.idF with
        | none => exact absurd hi (h1 a (List.mem_cons_self a rs) hpa)
        | some rid => exact ⟨rid, rfl⟩
      have hnf : needsFresh a.uuidF = false := h2 a (List.mem_cons_self a rs) hpa
      obtain ⟨ln, hln⟩ : ∃ ln, extract_last_name a = .ok ln := by
        cases hok : extract_last_name a with
        | ok v => exact ⟨v, rfl⟩
        | error e =>
          have := h3 a (List.mem_cons_self a rs) hpa
          rw [hok] at this
          cases this
      have hstep : upsert_participants tbl (a :: rs) s ctr acc =
          upsert_participants
            (upsertRowBy PartRow.uuid tbl
              ⟨ensure_uuid a.uuidF (s ctr), a.idF, extract_first_name a, ln,
                a.personEmail, a.phoneF, a.personBirthdate, a.lastModF⟩)
            rs s (if needsFresh a.uuidF then ctr + 1 else ctr)
            (dictSetS acc rid (ensure_uuid a.uuidF (s ctr))) := by
        simp only [upsert_participants, hpa, Bool.not_true, Bool.false_eq_true, if_false]
        rw [hrid, hln]
      rw [hstep, ensure_uuid_of_not_fresh a.uuidF (s ctr) hnf, hnf]
      simp only [Bool.false_eq_true, if_false]
      rw [ih _ s ctr _ (fun q hq hq2 => h1 q (List.mem_cons_of_mem a hq) hq2)
        (fun q hq hq2 => h2 q (List.mem_cons_of_mem a hq) hq2)
        (fun q hq hq2 => h3 q (List.mem_cons_of_mem a hq) hq2)]
      have hmap : acctMapOf (a :: rs) acc =
          acctMapOf rs (dictSetS acc rid (pyStrip (a.uuidF.getD ""))) := by
        show acctMapOf rs (if a.isPersonAccount then _ else acc) = _
        rw [if_pos hpa, hrid]
        rfl
      have htr : trPart a =
          ⟨pyStrip (a.uuidF.getD ""), a.idF, extract_first_name a, ln,
            a.personEmail, a.phoneF, a.personBirthdate, a.lastModF⟩ := by
        unfold trPart lastNameOf
        rw [hln]
      have hfold : partFold tbl (a :: rs) =
          partFold (upsertRowBy PartRow.uuid tbl
            ⟨pyStrip (a.uuidF.getD ""), a.idF, extract_first_name a, ln,
              a.personEmail, a.phoneF, a.personBirthdate, a.lastModF⟩) rs := by
        show partFold (if a.isPersonAccount then _ else tbl) rs = _
        rw [if_pos hpa, htr]
      rw [hmap, hfold]
    · have hpa' : a.isPersonAccount = false := by
        cases h : a.isPersonAccount
        · rfl
        · exact absurd h hpa
      have hstep : upsert_participants tbl (a :: rs) s ctr acc =
          upsert_participants tbl rs s ctr acc := by
        simp only [upsert_participants, hpa', Bool.not_false, if_true]
      rw [hstep, ih _ s ctr _ (fun q hq hq2 => h1 q (List.mem_cons_of_mem a hq) hq2)
        (fun q hq hq2 => h2 q (List.mem_cons_of_mem a hq) hq2)
        (fun q hq hq2 => h3 q (List.mem_cons_of_mem a hq) hq2)]
      have hmap : acctMapOf (a :: rs) acc = acctMapOf rs acc := by
        show acctMapOf rs (if a.isPersonAccount then _ else acc) = _
        rw [hpa']
        rfl
      have hfold : partFold tbl (a :: rs) = partFold tbl rs := by
        show partFold (if a.isPersonAccount then _ else tbl) rs = _
        rw [hpa']
        rfl
      rw [hmap, hfold]

theorem upsert_enrollments_shape (rows : List SfEnrRec) :
    ∀ (tbl : List EnrRow) (progM acctM : List (String × String))
      (s : Nat → String) (ctr : Nat) (acc : List (String × String)) (insLog : List EnrRow),
      (∀ e ∈ rows, needsFresh e.uuidF = false) →
      upsert_enrollments tbl rows progM acctM s ctr acc insLog =
        (enrMapOf rows progM acctM acc, enrFold tbl rows progM acctM, ctr,
          insLog ++ enrLogOf rows progM acctM) := by
  induction rows with
  | nil =>
    intro tbl progM acctM s ctr acc insLog _
    simp [upsert_enrollments, enrMapOf, enrFold, enrLogOf]
  | cons e rs ih =>
    intro tbl progM acctM s ctr acc insLog h2
    have hnf : needsFresh e.uuidF = false := h2 e (List.mem_cons_self e rs)
    by_cases h : enrInsertable progM acctM e = true
    · have h3 : ∃ i p a, e.idF = some i ∧ e.programIdF = some p ∧ e.accountIdF = some a := by
        unfold enrInsertable at h
        cases hi : e.idF <;> rw [hi] at h
        · cases h
        cases hp : e.programIdF <;> rw [hp] at h
        · cases h
        cases ha : e.accountIdF <;> rw [ha] at h
        · cases h
        exact ⟨_, _, _, rfl, rfl, rfl⟩
      obtain ⟨i, p, a, hi, hp, ha⟩ := h3
      have hstep : upsert_enrollments tbl (e :: rs) progM acctM s ctr acc insLog =
          upsert_enrollments
            (upsertRowBy EnrRow.uuid tbl
              ⟨ensure_uuid e.uuidF (s ctr), i, p, a, e.startDateF, e.endDateF,
                e.statusF, e.enteredHmisF, e.exitedHmisF, e.lastModF⟩)
            rs progM acctM s
            (if needsFresh e.uuidF then ctr + 1 else ctr)
            (dictSetS acc i (ensure_uuid e.uuidF (s ctr)))
            (insLog ++ [⟨ensure_uuid e.uuidF (s ctr), i, p, a, e.startDateF,
              e.endDateF, e.statusF, e.enteredHmisF, e.exitedHmisF, e.lastModF⟩]) := by
        simp only [upsert_enrollments]
        rw [if_pos h, hi, hp, ha]
      have htr : trEnr e =
          ⟨pyStrip (e.uuidF.getD ""), i, p, a, e.startDateF, e.endDateF,
            e.statusF, e.enteredHmisF, e.exitedHmisF, e.lastModF⟩ := by
        unfold trEnr
        rw [hi, hp, ha]
        rfl
      rw [hstep, ensure_uuid_of_not_fresh e.uuidF (s ctr) hnf, hnf]
      simp only [Bool.false_eq_true, if_false]
      rw [ih _ progM acctM s ctr _ _ (fun q hq => h2 q (List.mem_cons_of_mem e hq))]
      have hmap : enrMapOf (e :: rs) progM acctM acc =
          enrMapOf rs progM acctM (dictSetS acc i (pyStrip (e.uuidF.getD ""))) := by
        show enrMapOf rs progM acctM (if enrInsertable progM acctM e then _ else acc) = _
        rw [if_pos h, hi]
        rfl
      have hfold : enrFold tbl (e :: rs) progM acctM =
          enrFold (upsertRowBy EnrRow.uuid tbl
            ⟨pyStrip (e.uuidF.getD ""), i, p, a, e.startDateF, e.endDateF,
              e.statusF, e.enteredHmisF, e.exitedHmisF, e.lastModF⟩) rs progM acctM := by
        show enrFold (if enrInsertable progM acctM e then _ else tbl) rs progM acctM = _
        rw [if_pos h, htr]
      have hlog : enrLogOf (e :: rs) progM acctM =
          ⟨pyStrip (e.uuidF.getD ""), i, p, a, e.startDateF, e.endDateF,
            e.statusF, e.enteredHmisF, e.exitedHmisF, e.lastModF⟩ ::
            enrLogOf rs progM acctM := by
        unfold enrLogOf
        rw [List.filter_cons_of_pos h, List.map_cons, htr]
      rw [hmap, hfold, hlog]
      simp
    · have hstep : upsert_enrollments tbl (e :: rs) progM acctM s ctr acc insLog =
          upsert_enrollments tbl rs progM acctM s ctr acc insLog := by
        simp only [upsert_enrollments]
        rw [if_neg h]
      rw [hstep, ih _ progM acctM s ctr _ _ (fun q hq => h2 q (List.mem_cons_of_mem e hq))]
      have hmap : enrMapOf (e :: rs) progM acctM acc = enrMapOf rs progM acctM acc := by
        show enrMapOf rs progM acctM (if enrInsertable progM acctM e then _ else acc) = _
        rw [if_neg h]
      have hfold : enrFold tbl (e :: rs) progM acctM = enrFold tbl rs progM acctM := by
        show enrFold (if enrInsertable progM acctM e then _ else tbl) rs progM acctM = _
        rw [if_neg h]
      have hlog : enrLogOf (e :: rs) progM acctM = enrLogOf rs progM acctM := by
        unfold enrLogOf
        rw [List.filter_cons_of_neg h]
      rw [hmap, hfold, hlog]

theorem foldl_filter_if {β γ : Type} (P : β → Bool) (g : γ → β → γ) (l : List β)
    (init : γ) :
    l.foldl (fun t e => if P e then g t e else t) init = (l.filter P).foldl g init := by
  induction l generalizing init with
  | nil => rfl
  | cons e es ih =>
    by_cases h : P e = true
    · rw [List.filter_cons_of_pos h]
      show es.foldl _ (if P e then g init e else init) = _
      rw [if_pos h]
      exact ih (g init e)
    · rw [List.filter_cons_of_neg h]
      show es.foldl _ (if P e then g init e else init) = _
      rw [if_neg h]
      exact ih init

theorem progFold_replay (tbl : List ProgRow) (rows : List SfProgramRec) :
    progFold (progFold tbl rows) rows = progFold tbl rows := by
  have hconv : ∀ t, progFold t rows =
      (rows.map trProg).foldl (upsertRowBy ProgRow.uuid) t := by
    intro t
    unfold progFold
    rw [List.foldl_map]
  rw [hconv, hconv]
  exact foldl_upsert_replay ProgRow.uuid (rows.map trProg) tbl

theorem partFold_replay (tbl : List PartRow) (rows : List SfAccountRec) :
    partFold (partFold tbl rows) rows = partFold tbl rows := by
  have hconv : ∀ t, partFold t rows =
      ((rows.filter (fun a => a.isPersonAccount)).map trPart).foldl
        (upsertRowBy PartRow.uuid) t := by
    intro t
    unfold partFold
    rw [foldl_filter_if, List.foldl_map]
  rw [hconv, hconv]
  exact foldl_upsert_replay PartRow.uuid
    ((rows.filter (fun a => a.isPersonAccount)).map trPart) tbl

theorem enrFold_replay (tbl : List EnrRow) (rows : List SfEnrRec)
    (progM acctM : List (String × String)) :
    enrFold (enrFold tbl rows progM acctM) rows progM acctM =
      enrFold tbl rows progM acctM := by
  have hconv : ∀ t, enrFold t rows progM acctM =
      ((rows.filter (enrInsertable progM acctM)).map trEnr).foldl
        (upsertRowBy EnrRow.uuid) t := by
    intro t
    unfold enrFold
    rw [foldl_filter_if, List.foldl_map]
  rw [hconv, hconv]
  exact foldl_upsert_replay EnrRow.uuid
    ((rows.filter (enrInsertable progM acctM)).map trEnr) tbl

theorem run_full_sync_shape (rd : RemoteData)
    (hpid : ∀ r ∈ rd.programs, r.idF ≠ none)
    (hpu : ∀ r ∈ rd.programs, needsFresh r.uuidF = false)
    (haid : ∀ a ∈ rd.accounts, a.isPersonAccount = true → a.idF ≠ none)
    (hau : ∀ a ∈ rd.accounts, a.isPersonAccount = true → needsFresh a.uuidF = false)
    (haln : ∀ a ∈ rd.accounts, a.isPersonAccount = true → (extract_last_name a).isOk = true)
    (heu : ∀ e ∈ rd.enrollments, needsFresh e.uuidF = false)
    (db : DbTables) (s : Nat → String) :
    run_full_sync db rd s =
      .ok ⟨progMapOf rd.programs [], acctMapOf rd.accounts [],
        enrMapOf rd.enrollments (progMapOf rd.programs []) (acctMapOf rd.accounts []) [],
        ⟨progFold db.programs rd.programs, partFold db.participants rd.accounts,
          enrFold db.enrollments rd.enrollments (progMapOf rd.programs [])
            (acctMapOf rd.accounts [])⟩,
        enrLogOf rd.enrollments (progMapOf rd.programs []) (acctMapOf rd.accounts []),
        (progFold db.programs rd.programs).length,
        (partFold db.participants rd.accounts).length,
        (enrFold db.enrollments rd.enrollments (progMapOf rd.programs [])
          (acctMapOf rd.accounts [])).length⟩ := by
  have h1 := upsert_programs_shape rd.programs db.programs s 0 [] hpid hpu
  have h2 := upsert_participants_shape rd.accounts db.participants s 0 [] haid hau haln
  have h3 := upsert_enrollments_shape rd.enrollments db.enrollments
    (progMapOf rd.programs []) (acctMapOf rd.accounts []) s 0 [] [] heu
  simp only [run_full_sync, h1, h2, h3, List.nil_append]

/-- Counterexample to claim C3 as stated: pulling a remote Program that
carries no reconciliation key (`UUID__c` blank) is not idempotent. The
fresh uuid drawn on each run differs (distinct `uuid.uuid4()` draws),
so the second pull assigns the record a different `localId`, and under
replace-by-primary-key semantics the cache gains a second row for the
same Salesforce id (counts 1 and then 2). -/
theorem C3_counterexample :
    (run_full_sync ⟨[], [], []⟩ ⟨[⟨some "P1", some "Alpha", none, none⟩], [], []⟩
        (fun _ => "gen-run1")).map (fun o => (o.progMap, o.programsCount)) =
      .ok ([("P1", "gen-run1")], 1) ∧
    (run_full_sync ⟨[⟨"gen-run1", some "P1", some "Alpha", none⟩], [], []⟩
        ⟨[⟨some "P1", some "Alpha", none, none⟩], [], []⟩
        (fun _ => "gen-run2")).map (fun o => (o.progMap, o.programsCount)) =
      .ok ([("P1", "gen-run2")], 2) ∧
    "gen-run1" ≠ "gen-run2" := by
  exact ⟨rfl, rfl, by decide⟩

/-- Claim C3, amended: provided every fetched record carries a
non-blank reconciliation key (`UUID__c`) — and the fetched data makes
both cycles complete — running the full pull cycle twice against the
same record sets yields identical mappings (identical `localId`
assignments), an identical local cache, and identical per-entity
counts; a record with a blank key is instead assigned a fresh uuid on
every run (see the counterexample). -/
theorem C3_pull_idempotent_amended :
    ∀ (db : DbTables) (rd : RemoteData) (s1 s2 : Nat → String),
      (∀ r ∈ rd.programs, r.idF ≠ none) →
      (∀ r ∈ rd.programs, needsFresh r.uuidF = false) →
      (∀ a ∈ rd.accounts, a.isPersonAccount = true → a.idF ≠ none) →
      (∀ a ∈ rd.accounts, a.isPersonAccount = true → needsFresh a.uuidF = false) →
      (∀ a ∈ rd.accounts, a.isPersonAccount = true → (extract_last_name a).isOk = true) →
      (∀ e ∈ rd.enrollments, needsFresh e.uuidF = false) →
      ∃ out1 out2,
        run_full_sync db rd s1 = .ok out1 ∧
        run_full_sync out1.tables rd s2 = .ok out2 ∧
        out2.tables = out1.tables ∧
        out2.progMap = out1.progMap ∧
        out2.acctMap = out1.acctMap ∧
        out2.enrMap = out1.enrMap ∧
        out2.insertedEnrollments = out1.insertedEnrollments ∧
        out2.programsCount = out1.programsCount ∧
        out2.participantsCount = out1.participantsCount ∧
        out2.enrollmentsCount = out1.enrollmentsCount := by
  intro db rd s1 s2 hpid hpu haid hau haln heu
  have hr1 := run_full_sync_shape rd hpid hpu haid hau haln heu db s1
  have hr2 := run_full_sync_shape rd hpid hpu haid hau haln heu
    (DbTables.mk (progFold db.programs rd.programs) (partFold db.participants rd.accounts)
      (enrFold db.enrollments rd.enrollments (progMapOf rd.programs [])
        (acctMapOf rd.accounts []))) s2
  refine ⟨_, _, hr1, hr2, ?_, rfl, rfl, rfl, rfl, ?_, ?_, ?_⟩
  · show DbTables.mk
        (progFold (progFold db.programs rd.programs) rd.programs)
        (partFold (partFold db.participants rd.accounts) rd.accounts)
        (enrFold (enrFold db.enrollments rd.enrollments (progMapOf rd.programs [])
            (acctMapOf rd.accounts [])) rd.enrollments (progMapOf rd.programs [])
          (acctMapOf rd.accounts [])) =
      DbTables.mk (progFold db.programs rd.programs) (partFold db.participants rd.accounts)
        (enrFold db.enrollments rd.enrollments (progMapOf rd.programs [])
          (acctMapOf rd.accounts []))
    rw [progFold_replay, partFold_replay, enrFold_replay]
  · show (progFold (progFold db.programs rd.programs) rd.programs).length = _
    rw [progFold_replay]
  · show (partFold (partFold db.participants rd.accounts) rd.accounts).length = _
    rw [partFold_replay]
  · show (enrFold (enrFold db.enrollments rd.enrollments (progMapOf rd.programs [])
        (acctMapOf rd.accounts [])) rd.enrollments (progMapOf rd.programs [])
      (acctMapOf rd.accounts [])).length = _
    rw [enrFold_replay]

/-- Witness for C3's amended theorem: a concrete remote data set whose
records all carry reconciliation keys, pulled twice with two different
uuid supplies. -/
theorem C3_witness :
    ∃ out1 out2,
      run_full_sync ⟨[], [], []⟩
          ⟨[⟨some "P1", some "Alpha", some "u-p1", none⟩],
            [⟨some "E1", some "P1", some "A1", some "u-e1", none, none,
              some "Active", false, false, none⟩],
            [⟨some "A1", true, some "Jo Lee", some "Jo", some "Lee", none, none,
              none, some "u-a1", none⟩]⟩ (fun n => "r1-" ++ toString n) = .ok out1 ∧
      run_full_sync out1.tables
          ⟨[⟨some "P1", some "Alpha", some "u-p1", none⟩],
            [⟨some "E1", some "P1", some "A1", some "u-e1", none, none,
              some "Active", false, false, none⟩],
            [⟨some "A1", true, some "Jo Lee", some "Jo", some "Lee", none, none,
              none, some "u-a1", none⟩]⟩ (fun n => "r2-" ++ toString n) = .ok out2 ∧
      out2.tables = out1.tables ∧
      out2.progMap = out1.progMap ∧
      out2.acctMap = out1.acctMap ∧
      out2.enrMap = out1.enrMap ∧
      out2.insertedEnrollments = out1.insertedEnrollments ∧
      out2.programsCount = out1.programsCount ∧
      out2.participantsCount = out1.participantsCount ∧
      out2.enrollmentsCount = out1.enrollmentsCount := by
  exact C3_pull_idempotent_amended ⟨[], [], []⟩
    ⟨[⟨some "P1", some "Alpha", some "u-p1", none⟩],
      [⟨some "E1", some "P1", some "A1", some "u-e1", none, none,
        some "Active", false, false, none⟩],
      [⟨some "A1", true, some "Jo Lee", some "Jo", some "Lee", none, none,
        none, some "u-a1", none⟩]⟩
    (fun n => "r1-" ++ toString n) (fun n => "r2-" ++ toString n)
    (by decide) (by decide) (by decide) (by decide) (by decide) (by decide)

/-! ## Claim C8 -/

theorem lookupS_dictSetS_isSome {α : Type} (m : List (String × α)) (k k' : String)
    (v : α) (h : (lookupS (dictSetS m k' v) k).isSome = true) :
    k = k' ∨ (lookupS m k).isSome = true := by
  by_cases hk : k = k'
  · exact Or.inl hk
  · rw [lookupS_dictSetS_ne m k k' v hk] at h
    exact Or.inr h

theorem truthy_opt_isSome (o : Option String)
    (h : (match o with | some u => decide (u ≠ "") | none => false) = true) :
    o.isSome = true := by
  cases o
  · cases h
  · rfl

theorem enrInsertable_lookups (progM acctM : List (String × String)) (e : SfEnrRec)
    (i p a : String) (hi : e.idF = some i) (hp : e.programIdF = some p)
    (ha : e.accountIdF = some a) (h : enrInsertable progM acctM e = true) :
    (lookupS progM p).isSome = true ∧ (lookupS acctM a).isSome = true := by
  unfold enrInsertable at h
  rw [hi, hp, ha] at h
  simp only [Bool.and_eq_true] at h
  obtain ⟨⟨⟨⟨h1, h2⟩, h3⟩, h4⟩, h5⟩ := h
  exact ⟨truthy_opt_isSome _ h4, truthy_opt_isSome _ h5⟩

theorem upsert_enrollments_inserted_resolve (rows : List SfEnrRec) :
    ∀ (tbl : List EnrRow) (progM acctM : List (String × String)) (s : Nat → String)
      (ctr : Nat) (acc : List (String × String)) (insLog : List EnrRow) (row : EnrRow),
      row ∈ (upsert_enrollments tbl rows progM acctM s ctr acc insLog).2.2.2 →
      row ∈ insLog ∨
        ((lookupS progM row.programId).isSome = true ∧
          (lookupS acctM row.enrolleeId).isSome = true ∧
          ∃ e ∈ rows, e.idF = some row.sfid ∧ e.programIdF = some row.programId ∧
            e.accountIdF = some row.enrolleeId) := by
  induction rows with
  | nil =>
    intro tbl progM acctM s ctr acc insLog row hrow
    exact Or.inl hrow
  | cons e rs ih =>
    intro tbl progM acctM s ctr acc insLog row hrow
    by_cases h : enrInsertable progM acctM e = true
    · have h3 : ∃ i p a, e.idF = some i ∧ e.programIdF = some p ∧ e.accountIdF = some a := by
        unfold enrInsertable at h
        cases hi : e.idF <;> rw [hi] at h
        · cases h
        cases hp : e.programIdF <;> rw [hp] at h
        · cases h
        cases ha : e.accountIdF <;> rw [ha] at h
        · cases h
        exact ⟨_, _, _, rfl, rfl, rfl⟩
      obtain ⟨i, p, a, hi, hp, ha⟩ := h3
      have hstep : upsert_enrollments tbl (e :: rs) progM acctM s ctr acc insLog =
          upsert_enrollments
            (upsertRowBy EnrRow.uuid tbl
              ⟨ensure_uuid e.uuidF (s ctr), i, p, a, e.startDateF, e.endDateF,
                e.statusF, e.enteredHmisF, e.exitedHmisF, e.lastModF⟩)
            rs progM acctM s
            (if needsFresh e.uuidF then ctr + 1 else ctr)
            (dictSetS acc i (ensure_uuid e.uuidF (s ctr)))
            (insLog ++ [⟨ensure_uuid e.uuidF (s ctr), i, p, a, e.startDateF,
              e.endDateF, e.statusF, e.enteredHmisF, e.exitedHmisF, e.lastModF⟩]) := by
        simp only [upsert_enrollments]
        rw [if_pos h, hi, hp, ha]
      rw [hstep] at hrow
      rcases ih _ progM acctM s _ _ _ row hrow with hin | ⟨hps, has, e2, he2, hids⟩
      · rcases List.mem_append.mp hin with hin1 | hin2
        · exact Or.inl hin1
        · have hrw := List.mem_singleton.mp hin2
          subst hrw
          have hlks := enrInsertable_lookups progM acctM e i p a hi hp ha h
          exact Or.inr ⟨hlks.1, hlks.2, e, List.mem_cons_self e rs, hi, hp, ha⟩
      · exact Or.inr ⟨hps, has, e2, List.mem_cons_of_mem e he2, hids⟩
    · have hstep : upsert_enrollments tbl (e :: rs) progM acctM s ctr acc insLog =
          upsert_enrollments tbl rs progM acctM s ctr acc insLog := by
        simp only [upsert_enrollments]
        rw [if_neg h]
      rw [hstep] at hrow
      rcases ih _ progM acctM s _ _ _ row hrow with hin | ⟨hps, has, e2, he2, hids⟩
      · exact Or.inl hin
      · exact Or.inr ⟨hps, has, e2, List.mem_cons_of_mem e he2, hids⟩

theorem upsert_programs_map_src (rows : List SfProgramRec) :
    ∀ (tbl : List ProgRow) (s : Nat → String) (ctr : Nat) (acc : List (String × String))
      (m : List (String × String)) (t : List ProgRow) (c : Nat),
      upsert_programs tbl rows s ctr acc = .ok (m, t, c) →
      ∀ k, (lookupS m k).isSome = true →
        (lookupS acc k).isSome = true ∨ ∃ r ∈ rows, r.idF = some k := by
  induction rows with
  | nil =>
    intro tbl s ctr acc m t c hok k hk
    have hacc : acc = m := by
      cases hok
      rfl
    rw [← hacc] at hk
    exact Or.inl hk
  | cons r rs ih =>
    intro tbl s ctr acc m t c hok k hk
    cases hi : r.idF with
    | none =>
      rw [show upsert_programs tbl (r :: rs) s ctr acc = .error "KeyError: Id" by
        simp only [upsert_programs]; rw [hi]] at hok
      cases hok
    | some rid =>
      have hstep : upsert_programs tbl (r :: rs) s ctr acc =
          upsert_programs
            (upsertRowBy ProgRow.uuid tbl
              ⟨ensure_uuid r.uuidF (s ctr), r.idF, r.nameF, r.lastModF⟩)
            rs s (if needsFresh r.uuidF then ctr + 1 else ctr)
            (dictSetS acc rid (ensure_uuid r.uuidF (s ctr))) := by
        simp only [upsert_programs]
        rw [hi]
      rw [hstep] at hok
      rcases ih _ s _ _ m t c hok k hk with hacc | ⟨r2, hr2, hid2⟩
      · rcases lookupS_dictSetS_isSome acc k rid _ hacc with rfl | hacc2
        · exact Or.inr ⟨r, List.mem_cons_self r rs, hi⟩
        · exact Or.inl hacc2
      · exact Or.inr ⟨r2, List.mem_cons_of_mem r hr2, hid2⟩

theorem upsert_participants_map_src (rows : List SfAccountRec) :
    ∀ (tbl : List PartRow) (s : Nat → String) (ctr : Nat) (acc : List (String × String))
      (m : List (String × String)) (t : List PartRow) (c : Nat),
      upsert_participants tbl rows s ctr acc = .ok (m, t, c) →
      ∀ k, (lookupS m k).isSome = true →
        (lookupS acc k).isSome = true ∨
          ∃ a ∈ rows, a.isPersonAccount = true ∧ a.idF = some k := by
  induction rows with
  | nil =>
    intro tbl s ctr acc m t c hok k hk
    have hacc : acc = m := by
      cases hok
      rfl
    rw [← hacc] at hk
    exact Or.inl hk
  | cons a rs ih =>
    intro tbl s ctr acc m t c hok k hk
    by_cases hpa : a.isPersonAccount = true
    · cases hi : a.idF with
      | none =>
        rw [show upsert_participants tbl (a :: rs) s ctr acc = .error "KeyError: Id" by
          simp only [upsert_participants, hpa, Bool.not_true, Bool.false_eq_true, if_false]
          rw [hi]] at hok
        cases hok
      | some rid =>
        cases hln : extract_last_name a with
        | error msg =>
          rw [show upsert_participants tbl (a :: rs) s ctr acc = .error msg by
            simp only [upsert_participants, hpa, Bool.not_true, Bool.false_eq_true, if_false]
            rw [hi, hln]] at hok
          cases hok
        | ok ln =>
          have hstep : upsert_participants tbl (a :: rs) s ctr acc =
              upsert_participants
                (upsertRowBy PartRow.uuid tbl
                  ⟨ensure_uuid a.uuidF (s ctr), a.idF, extract_first_name a, ln,
                    a.personEmail, a.phoneF, a.personBirthdate, a.lastModF⟩)
                rs s (if needsFresh a.uuidF then ctr + 1 else ctr)
                (dictSetS acc rid (ensure_uuid a.uuidF (s ctr))) := by
            simp only [upsert_participants, hpa, Bool.not_true, Bool.false_eq_true, if_false]
            rw [hi, hln]
          rw [hstep] at hok
          rcases ih _ s _ _ m t c hok k hk with hacc | ⟨a2, ha2, hres⟩
          · rcases lookupS_dictSetS_isSome acc k rid _ hacc with rfl | hacc2
            · exact Or.inr ⟨a, List.mem_cons_self a rs, hpa, hi⟩
            · exact Or.inl hacc2
          · exact Or.inr ⟨a2, List.mem_cons_of_mem a ha2, hres⟩
    · have hpa' : a.isPersonAccount = false := by
        cases h : a.isPersonAccount
        · rfl
        · exact absurd h hpa
      have hstep : upsert_participants tbl (a :: rs) s ctr acc =
          upsert_participants tbl rs s ctr acc := by
        simp only [upsert_participants, hpa', Bool.not_false, if_true]
      rw [hstep] at hok
      rcases ih _ s _ _ m t c hok k hk with hacc | ⟨a2, ha2, hres⟩
      · exact Or.inl hacc
      · exact Or.inr ⟨a2, List.mem_cons_of_mem a ha2, hres⟩

theorem run_full_sync_inv (db : DbTables) (rd : RemoteData) (s : Nat → String)
    (out : SyncOut) (h : run_full_sync db rd s = .ok out) :
    ∃ ctr1 ctr2 ctr3,
      upsert_programs db.programs rd.programs s 0 [] =
        .ok (out.progMap, out.tables.programs, ctr1) ∧
      upsert_participants db.participants rd.accounts s ctr1 [] =
        .ok (out.acctMap, out.tables.participants, ctr2) ∧
      upsert_enrollments db.enrollments rd.enrollments out.progMap out.acctMap s ctr2 [] [] =
        (out.enrMap, out.tables.enrollments, ctr3, out.insertedEnrollments) := by
  unfold run_full_sync at h
  split at h
  · cases h
  · rename_i pm pt c1 h1
    split at h
    · cases h
    · rename_i am pat c2 h2
      rcases h3 : upsert_enrollments db.enrollments rd.enrollments pm am s c2 [] [] with
        ⟨em, et, c3, il⟩
      rw [h3] at h
      cases h
      exact ⟨c1, c2, c3, h1, h2, h3⟩

/-- Counterexample to claim C8 as stated: rows already in the local
cache before a cycle persist through it. Here the cache holds a stale
enrollment (with its stale parents) and the cycle fetches nothing, so
after the cycle the enrollment row is still present while the cycle's
program and participant mappings are empty — the row references no
program or participant upserted in that cycle. -/
theorem C8_counterexample :
    (run_full_sync
        ⟨[⟨"u-p", some "P-old", some "Old Program", none⟩],
          [⟨"u-a", some "A-old", some "Jo", some "Lee", none, none, none, none⟩],
          [⟨"u-e", "E-old", "P-old", "A-old", none, none, some "Active", false, false,
            none⟩]⟩
        ⟨[], [], []⟩ (fun _ => "g")).map
      (fun o => (o.tables.enrollments, o.progMap, o.acctMap, o.insertedEnrollments)) =
      .ok ([⟨"u-e", "E-old", "P-old", "A-old", none, none, some "Active", false, false,
        none⟩], [], [], []) := by
  rfl

/-- Claim C8, amended: in a completed full sync cycle, Programs are
upserted first, then Participants, then Enrollments; the enrollment
upsert consumes exactly the two mappings produced by the completed
parent upserts; and every enrollment row INSERTED during the cycle
references a program record and a person-account record that were
upserted earlier in that same cycle (rows already present before the
cycle may persist regardless — see the counterexample). -/
theorem C8_parent_before_child_amended :
    ∀ (db : DbTables) (rd : RemoteData) (s : Nat → String) (out : SyncOut),
      run_full_sync db rd s = .ok out →
      (∃ ctr2 ctr3,
        upsert_enrollments db.enrollments rd.enrollments out.progMap out.acctMap s
          ctr2 [] [] =
          (out.enrMap, out.tables.enrollments, ctr3, out.insertedEnrollments)) ∧
      (∀ row ∈ out.insertedEnrollments,
        (∃ p ∈ rd.programs, p.idF = some row.programId) ∧
        (∃ a ∈ rd.accounts, a.isPersonAccount = true ∧ a.idF = some row.enrolleeId) ∧
        (lookupS out.progMap row.programId).isSome = true ∧
        (lookupS out.acctMap row.enrolleeId).isSome = true) := by
  intro db rd s out h
  obtain ⟨c1, c2, c3, h1, h2, h3⟩ := run_full_sync_inv db rd s out h
  constructor
  · exact ⟨c2, c3, h3⟩
  · intro row hrow
    have hmem : row ∈ (upsert_enrollments db.enrollments rd.enrollments out.progMap
        out.acctMap s c2 [] []).2.2.2 := by
      rw [h3]
      exact hrow
    rcases upsert_enrollments_inserted_resolve rd.enrollments db.enrollments
      out.progMap out.acctMap s c2 [] [] row hmem with hnil | ⟨hps, has, _, _, _⟩
    · cases hnil
    · refine ⟨?_, ?_, hps, has⟩
      · rcases upsert_programs_map_src rd.programs db.programs s 0 []
          out.progMap out.tables.programs c1 h1 row.programId hps with hemp | hsrc
        · cases hemp
        · exact hsrc
      · rcases upsert_participants_map_src rd.accounts db.participants s c1 []
          out.acctMap out.tables.participants c2 h2 row.enrolleeId has with hemp | hsrc
        · cases hemp
        · exact hsrc

/-- Witness for C8's amended theorem at a concrete cycle: one program,
one person account and one resolvable enrollment. -/
theorem C8_amended_witness :
    ∃ out, run_full_sync ⟨[], [], []⟩
        ⟨[⟨some "P1", some "Alpha", some "u-p1", none⟩],
          [⟨some "E1", some "P1", some "A1", some "u-e1", none, none,
            some "Active", false, false, none⟩],
          [⟨some "A1", true, some "Jo Lee", some "Jo", some "Lee", none, none,
            none, some "u-a1", none⟩]⟩ (fun n => "w" ++ toString n) = .ok out ∧
      ∀ row ∈ out.insertedEnrollments,
        (∃ p ∈ [(⟨some "P1", some "Alpha", some "u-p1", none⟩ : SfProgramRec)],
          p.idF = some row.programId) ∧
        (∃ a ∈ [(⟨some "A1", true, some "Jo Lee", some "Jo", some "Lee", none, none,
            none, some "u-a1", none⟩ : SfAccountRec)],
          a.isPersonAccount = true ∧ a.idF = some row.enrolleeId) := by
  refine ⟨_, rfl, ?_⟩
  intro row hrow
  have h := (C8_parent_before_child_amended ⟨[], [], []⟩
    ⟨[⟨some "P1", some "Alpha", some "u-p1", none⟩],
      [⟨some "E1", some "P1", some "A1", some "u-e1", none, none,
        some "Active", false, false, none⟩],
      [⟨some "A1", true, some "Jo Lee", some "Jo", some "Lee", none, none,
        none, some "u-a1", none⟩]⟩ (fun n => "w" ++ toString n) _ rfl).2 row hrow
  exact ⟨h.1, h.2.1⟩

end TGTHR
